import Mathlib

/-!
Verification development for the `ugradiolab` experiment queue runner and
capture/record pipeline.  Python modules are shallowly embedded: stateful
code becomes explicit state passing, machine floats become exact rationals
(`ℚ`) or reals where the mathematics demands it, fallible code returns
`Except`.  External collaborators (the SDR device, the signal generator
transport, NTP time, `scipy`'s Gamma quantile) are modelled as parameters
or oracles, matching their interface boundary.
-/

namespace UGL

/-- Python-level exceptions arising on the embedded code paths. -/
inductive PyErr
  | captureError    -- exception raised inside sdr.capture_data
  | valueError      -- ValueError
  | attributeError  -- AttributeError (e.g. method call on None)
  | typeError       -- TypeError (e.g. float() of a non-scalar array)
  deriving DecidableEq, Repr

/-! ## SDR device adapter (external collaborator)

`ugradio.sdr.SDR` is modelled as explicit configuration state plus a pure
capture oracle `capture_data : nsamples → nblocks → Except Unit (List α)`
(a block type `α` kept abstract; `.error` models the device raising). -/

structure SDRState (α : Type) where
  /-- argument of the last `set_direct_sampling` call: `true` ↔ `'q'`, `false` ↔ `0`. -/
  direct_sampling_q : Bool
  center_freq : ℚ
  sample_rate : ℚ
  gain : ℚ
  /-- the `sdr.direct` attribute assigned by `_configure_sdr`. -/
  direct : Bool
  /-- device capture oracle: `capture_data nsamples nblocks` returns the raw blocks. -/
  capture_data : ℕ → ℕ → Except Unit (List α)

/-- `ugradiolab.drivers.sdr_utils._capture`: request `nblocks + 1` blocks from
the device and drop the first returned block (`data[1:]`). -/
def _capture {α : Type} (sdr : SDRState α) (nsamples nblocks : ℕ) :
    Except Unit (List α) :=
  (sdr.capture_data nsamples (nblocks + 1)).map (List.drop 1)

/-! ## Signal generator (`ugradiolab.drivers.siggen`) -/

/-- Instrument state of the Agilent N9310A behind the SCPI transport. -/
structure Synth where
  freq_mhz : ℚ
  amp_dbm : ℚ
  rf : Bool
  deriving DecidableEq, Repr

/-- `siggen.set_signal`: set frequency, amplitude, and RF output in one call. -/
def set_signal (synth : Synth) (freq_mhz amp_dbm : ℚ) (rf_on : Bool := true) :
    Synth :=
  let s := { synth with freq_mhz := freq_mhz }   -- synth.set_freq_mhz(freq_mhz)
  let s := { s with amp_dbm := amp_dbm }         -- synth.set_ampl_dbm(amp_dbm)
  if rf_on then { s with rf := true }            -- synth.rf_on()
  else { s with rf := false }                    -- synth.rf_off()

/-! ## Experiment descriptors (`ugradiolab.experiment`) -/

/-- Base experiment specification (`Experiment` dataclass).
The Python `prefix` field is named `pfx` here (`prefix` is reserved). -/
structure Experiment where
  nsamples : ℕ := 2048
  nblocks : ℕ := 1
  sample_rate : ℚ := 2560000
  center_freq : ℚ := 0
  gain : ℚ := 0
  direct : Bool := true
  outdir : String := "."
  pfx : String := "exp"

/-- `Experiment._configure_sdr`: apply the experiment's SDR parameters. -/
def Experiment._configure_sdr {α : Type} (exp : Experiment) (sdr : SDRState α) :
    SDRState α :=
  let sdr :=
    if exp.direct then
      { sdr with direct_sampling_q := true, center_freq := 0 }
    else
      { sdr with direct_sampling_q := false, center_freq := exp.center_freq }
  { sdr with direct := exp.direct,
             sample_rate := exp.sample_rate,
             gain := exp.gain }

/-- `CalExperiment` dataclass fields (calibration variant). -/
structure CalExperiment extends Experiment where
  siggen_freq_mhz : ℚ := 0
  siggen_amp_dbm : ℚ := -10
  alt_deg : ℚ := 0
  az_deg : ℚ := 0

/-- `ObsExperiment` dataclass fields (sky-observation variant). -/
structure ObsExperiment extends Experiment where
  alt_deg : ℚ := 0
  az_deg : ℚ := 0

/-- `experiment._make_path`: timestamped output path.  The timestamp string
`ts` (from `time.strftime`) is passed in as an external input. -/
def _make_path (outdir pfx tag ts : String) : String :=
  outdir ++ "/" ++ pfx ++ "_" ++ tag ++ "_" ++ ts ++ ".npz"

/-- Result of one `CalExperiment.run` call: the returned path or the raised
exception, together with the final device and tone-source states. -/
structure CalRunResult (α : Type) where
  result : Except PyErr String
  sdr : SDRState α
  synth : Option Synth

/-- `CalExperiment.run`, straight-line embedding of lines 90–99 of
`ugradiolab/experiment.py`:
configure the SDR, `set_signal` (an `AttributeError` if `synth is None`),
`_capture` (an exception from the device propagates immediately — the
`synth.rf_off()` on line 94 is only reached on the success path), then
`rf_off`, build the path and save. -/
def CalExperiment.run {α : Type} (exp : CalExperiment) (sdr : SDRState α)
    (synth : Option Synth) (ts : String) : CalRunResult α :=
  let sdr := exp.toExperiment._configure_sdr sdr
  match synth with
  | none =>
      -- set_signal(None, ...) calls None.set_freq_mhz: AttributeError
      ⟨.error .attributeError, sdr, none⟩
  | some syn =>
      let syn := set_signal syn exp.siggen_freq_mhz exp.siggen_amp_dbm
      match _capture sdr exp.nsamples exp.nblocks with
      | .error _ =>
          -- the device raised inside capture: the exception propagates
          -- before line 94, so rf_off() is never executed
          ⟨.error .captureError, sdr, some syn⟩
      | .ok _ =>
          let syn := { syn with rf := false }  -- synth.rf_off()
          let path := _make_path exp.outdir exp.pfx "cal" ts
          -- save_cal persists the record; file contents are modelled
          -- separately (Record/CaptureRecord below)
          ⟨.ok path, sdr, some syn⟩

/-- `ObsExperiment.run`, lines 139–145: configure, capture, save. -/
def ObsExperiment.run {α : Type} (exp : ObsExperiment) (sdr : SDRState α)
    (ts : String) : Except PyErr String :=
  let sdr := exp.toExperiment._configure_sdr sdr
  match _capture sdr exp.nsamples exp.nblocks with
  | .error _ => .error .captureError
  | .ok _ => .ok (_make_path exp.outdir exp.pfx "obs" ts)

/-! ## Queue runner (`ugradiolab.queue.QueueRunner`)

The runner is modelled at the level its loop observes the experiments:
their dynamic type (`CalExperiment` vs `ObsExperiment`), the wall-clock
time each `exp.run` consumes, and the path or exception it produces.
Wall-clock time is a virtual clock: `time.time()` reads it, `time.sleep`
and `exp.run` advance it.  The interactive `input()` answers come from an
external `resp : ℕ → String` oracle indexed by queue position. -/

inductive ExpKind
  | cal  -- isinstance(exp, CalExperiment)
  | obs  -- isinstance(exp, ObsExperiment)
  deriving DecidableEq, Repr

/-- Queue-level view of one experiment. -/
structure QExp where
  kind : ExpKind
  /-- wall-clock duration consumed by `exp.run` (hardware latency). -/
  dur : ℚ := 0
  /-- outcome of `exp.run`: the saved path, or `.error` if it raised. -/
  result : Except Unit String := .ok ""

/-- Observable events of one queue run. -/
inductive QEv
  | sleep (w : ℚ)                   -- time.sleep(w) in the cadence wait
  | runStart (i : ℕ) (k : ExpKind)  -- exp.run invoked for step i
  deriving DecidableEq, Repr

/-- `true` exactly on an `exp.run` invocation of a calibration step
(the event at which a calibration capture would be attempted). -/
def QEv.isCalRun : QEv → Bool
  | .runStart _ k => k = .cal
  | _ => false

/-- Exceptions escaping `QueueRunner.run`. -/
inductive QErr
  | configError  -- the ValueError of queue.py lines 51–55 (missing synth)
  | expError     -- an exception propagating out of exp.run
  deriving DecidableEq, Repr

/-- `c.isspace()` for the whitespace handled by `str.strip()`. -/
def isSpaceB (c : Char) : Bool := c = ' ' ∨ c = '\t' ∨ c = '\n' ∨ c = '\r'

/-- Python `str.strip()`. -/
def pyStrip (s : String) : String :=
  ⟨((s.data.dropWhile isSpaceB).reverse.dropWhile isSpaceB).reverse⟩

/-- Python `str.lower()` (ASCII range, all the prompt needs). -/
def pyLower (s : String) : String :=
  ⟨s.data.map (fun ch =>
    if 'A' ≤ ch ∧ ch ≤ 'Z' then Char.ofNat (ch.toNat + 32) else ch)⟩

/-- `input(...).strip().lower()` applied to one prompt answer. -/
def parseAnswer (s : String) : String := pyLower (pyStrip s)

/-- Mutable state of the loop in `QueueRunner.run`. -/
structure QState where
  clock : ℚ
  obs_start : Option ℚ
  paths : List String
  trace : List QEv
  deriving DecidableEq

/-- Lines 57–63 of `queue.py`: sleep until the next cadence boundary before
starting an `ObsExperiment`.  `cadence_sec` is truthy when set and nonzero. -/
def cadencePhase (cadence_sec : Option ℚ) (kind : ExpKind) (st : QState) :
    QState :=
  match cadence_sec, st.obs_start with
  | some c, some t0 =>
      if c ≠ 0 ∧ kind = .obs then
        let elapsed := st.clock - t0
        let wait := c - elapsed
        if 0 < wait then
          { st with clock := st.clock + wait,
                    trace := st.trace ++ [.sleep wait] }
        else st
      else st
  | _, _ => st

/-- The loop of `QueueRunner.run` (queue.py lines 45–81), one iteration per
remaining experiment; `i` is the 0-based step index. -/
def QueueRunner.runAux (synth : Option Synth) (confirm : Bool)
    (cadence_sec : Option ℚ) (resp : ℕ → String) :
    List QExp → ℕ → QState → Except QErr (List String) × QState
  | [], _, st => (.ok st.paths, st)
  | exp :: rest, i, st =>
    -- lines 51–55: raise ValueError if a CalExperiment has no synth
    if exp.kind = .cal ∧ synth.isNone then
      (.error .configError, st)
    else
      let st := cadencePhase cadence_sec exp.kind st
      -- lines 66–73: optional confirmation prompt
      let answer := parseAnswer (resp i)
      if confirm ∧ answer = "q" then
        (.ok st.paths, st)  -- break: queue aborted, partial paths returned
      else if confirm ∧ answer = "s" then
        QueueRunner.runAux synth confirm cadence_sec resp rest (i + 1) st
      else
        -- lines 75–76: reset the cadence reference at the START of the run
        let st := if exp.kind = .obs
                  then { st with obs_start := some st.clock } else st
        let st := { st with trace := st.trace ++ [QEv.runStart i exp.kind] }
        match exp.result with
        | .error _ => (.error .expError, { st with clock := st.clock + exp.dur })
        | .ok p =>
            QueueRunner.runAux synth confirm cadence_sec resp rest (i + 1)
              { st with clock := st.clock + exp.dur,
                        paths := st.paths ++ [p] }

/-- `QueueRunner.run`: execute the queue from a given wall-clock origin. -/
def QueueRunner.run (experiments : List QExp) (synth : Option Synth)
    (confirm : Bool) (cadence_sec : Option ℚ) (resp : ℕ → String)
    (start : ℚ) : Except QErr (List String) × QState :=
  QueueRunner.runAux synth confirm cadence_sec resp experiments 0
    ⟨start, none, [], []⟩

/-! ## numpy values and .npz files

A `.npz` archive is a finite map from key strings to numpy arrays; scalars
are stored as 0-d arrays.  Arrays are modelled as nested lists by
dimensionality (rectangularity is a hypothesis where it matters), with the
element dtype carried alongside; float values are exact rationals. -/

inductive DType
  | int8 | int64 | float32 | float64 | boolT
  deriving DecidableEq, Repr

/-- numpy array contents by dimensionality (entries as exact rationals). -/
inductive NpPayload
  | d1 (a : List ℚ)
  | d2 (a : List (List ℚ))
  | d3 (a : List (List (List ℚ)))
  deriving DecidableEq, Repr

def NpPayload.ndim : NpPayload → ℕ
  | .d1 _ => 1
  | .d2 _ => 2
  | .d3 _ => 3

/-- `arr.shape`, reading each dimension off the (rectangular) nesting. -/
def NpPayload.shape : NpPayload → List ℕ
  | .d1 a => [a.length]
  | .d2 a => [a.length, (a.headD []).length]
  | .d3 a => [a.length, (a.headD []).length, ((a.headD []).headD []).length]

/-- Pointwise map over all entries. -/
def NpPayload.mapQ (g : ℚ → ℚ) : NpPayload → NpPayload
  | .d1 a => .d1 (a.map g)
  | .d2 a => .d2 (a.map (·.map g))
  | .d3 a => .d3 (a.map (·.map (·.map g)))

structure NpArray where
  dtype : DType
  payload : NpPayload
  deriving DecidableEq, Repr

/-- A value stored under one key of a `.npz` archive. -/
inductive NpVal
  | f64 (x : ℚ)
  | i64 (n : ℤ)
  | boolV (b : Bool)
  | arr (a : NpArray)
  deriving DecidableEq, Repr

def NpVal.ndim : NpVal → ℕ
  | .arr a => a.payload.ndim
  | _ => 0

def NpVal.dtype : NpVal → DType
  | .f64 _ => .float64
  | .i64 _ => .int64
  | .boolV _ => .boolT
  | .arr a => a.dtype

def NpVal.shape : NpVal → List ℕ
  | .arr a => a.payload.shape
  | _ => []

/-- A `.npz` archive: keyed values, first binding wins. -/
abbrev Npz := List (String × NpVal)

def Npz.get? (f : Npz) (k : String) : Option NpVal :=
  (f.find? (fun kv => kv.1 == k)).map (·.2)

/-- Truncation toward zero, the float→int conversion of Python `int(·)`
and of C-style numeric casts. -/
def truncZ (x : ℚ) : ℤ := if 0 ≤ x then ⌊x⌋ else -⌊-x⌋

/-- `astype(np.int8)` on one value: truncate toward zero, wrap mod 2^8. -/
def i8cast (x : ℚ) : ℤ := (truncZ x + 128) % 256 - 128

/-- The nested rows of a 3-D array value (`[]` on any other value; only
reached behind the `ndim == 3` check). -/
def NpVal.d3rows : NpVal → List (List (List ℚ))
  | .arr ⟨_, .d3 a⟩ => a
  | _ => []

/-- Python `int(v)` on a stored value (arrays of positive ndim raise). -/
def NpVal.toInt : NpVal → Except PyErr ℤ
  | .i64 n => .ok n
  | .f64 x => .ok (truncZ x)
  | .boolV b => .ok (if b then 1 else 0)
  | .arr _ => .error .typeError

/-- Python `float(v)` on a stored value. -/
def NpVal.toFloat : NpVal → Except PyErr ℚ
  | .f64 x => .ok x
  | .i64 n => .ok (n : ℚ)
  | .boolV b => .ok (if b then 1 else 0)
  | .arr _ => .error .typeError

/-- Python `bool(v)` on a stored value. -/
def NpVal.toBool : NpVal → Except PyErr Bool
  | .f64 x => .ok (decide (x ≠ 0))
  | .i64 n => .ok (decide (n ≠ 0))
  | .boolV b => .ok b
  | .arr _ => .error .typeError

/-! ## `ugradiolab.models.record.Record` -/

/-- The unified capture record (frozen dataclass).  `data` is the complex64
sample array, one `(re, im)` pair per sample. -/
structure Record where
  data : List (List (ℚ × ℚ))
  sample_rate : ℚ
  center_freq : ℚ
  gain : ℚ
  direct : Bool
  unix_time : ℚ
  jd : ℚ
  lst : ℚ
  alt : ℚ
  az : ℚ
  obs_lat : ℚ
  obs_lon : ℚ
  obs_alt : ℚ
  nblocks : ℕ
  nsamples : ℕ
  siggen_freq : Option ℚ := none
  siggen_amp : Option ℚ := none
  siggen_rf_on : Option Bool := none
  deriving DecidableEq, Repr

/-- `Record.uses_synth`: all three signal-generator fields populated. -/
def Record.uses_synth (r : Record) : Bool :=
  r.siggen_freq.isSome && r.siggen_amp.isSome && r.siggen_rf_on.isSome

def _REQUIRED_KEYS : List String :=
  ["data", "sample_rate", "center_freq", "gain", "direct",
   "unix_time", "jd", "lst", "alt", "az",
   "obs_lat", "obs_lon", "obs_alt", "nblocks", "nsamples"]

/-- `Record._to_npz_dict`: dtype-stable kwargs for `np.savez`.  `data` is
`np.stack([real.astype(int8), imag.astype(int8)], axis=-1)`; the three
signal-generator keys are written only when `uses_synth` (all-or-none). -/
def Record._to_npz_dict (r : Record) : Npz :=
  [("data", .arr { dtype := .int8,
                   payload := .d3 (r.data.map (fun row =>
                     row.map (fun z => [(i8cast z.1 : ℚ), (i8cast z.2 : ℚ)]))) }),
   ("sample_rate", .f64 r.sample_rate), ("center_freq", .f64 r.center_freq),
   ("gain", .f64 r.gain), ("direct", .boolV r.direct),
   ("unix_time", .f64 r.unix_time), ("jd", .f64 r.jd), ("lst", .f64 r.lst),
   ("alt", .f64 r.alt), ("az", .f64 r.az),
   ("obs_lat", .f64 r.obs_lat), ("obs_lon", .f64 r.obs_lon),
   ("obs_alt", .f64 r.obs_alt),
   ("nblocks", .i64 (r.nblocks : ℤ)), ("nsamples", .i64 (r.nsamples : ℤ))]
  ++ (match r.siggen_freq, r.siggen_amp, r.siggen_rf_on with
      | some fr, some am, some rf =>
          [("siggen_freq", .f64 fr), ("siggen_amp", .f64 am),
           ("siggen_rf_on", .boolV rf)]
      | _, _, _ => [])

/-- `Record.save`: the archive written to disk is exactly `_to_npz_dict`. -/
def Record.save (r : Record) : Npz := r._to_npz_dict

/-- One optional signal-generator key, populated independently of the
other two (`float(f[k]) if k in f else None`). -/
def loadOptFloat (f : Npz) (k : String) : Except PyErr (Option ℚ) :=
  match f.get? k with
  | some v => v.toFloat.map some
  | none => .ok none

def loadOptBool (f : Npz) (k : String) : Except PyErr (Option Bool) :=
  match f.get? k with
  | some v => v.toBool.map some
  | none => .ok none

/-- `Record.load` (models/record.py lines 131–205): required-key check,
then shape/dtype/consistency validation of `data`, then field conversion.
The three optional keys are read independently at the end. -/
def Record.load (f : Npz) : Except PyErr Record := do
  -- missing = _REQUIRED_KEYS - f.keys()
  if ¬ (_REQUIRED_KEYS.all (fun k => (f.get? k).isSome)) then
    throw .valueError
  let some dataV := f.get? "data" | throw .valueError
  let some nbV := f.get? "nblocks" | throw .valueError
  let some nsV := f.get? "nsamples" | throw .valueError
  let nb ← nbV.toInt
  let ns ← nsV.toInt
  -- data.ndim != 3 or data.shape[-1] != 2
  if dataV.ndim ≠ 3 ∨ dataV.shape.getLastD 0 ≠ 2 then throw .valueError
  -- data.dtype != np.int8
  if dataV.dtype ≠ .int8 then throw .valueError
  -- data.shape[:2] != (nblocks, nsamples)
  if (dataV.shape.take 2).map Int.ofNat ≠ [nb, ns] then throw .valueError
  -- iq = data[..., 0].astype(float32) + 1j * data[..., 1].astype(float32)
  let iq : List (List (ℚ × ℚ)) :=
    dataV.d3rows.map (fun row =>
      row.map (fun pair => (pair.getD 0 0, pair.getD 1 0)))
  let some srV := f.get? "sample_rate" | throw .valueError
  let some cfV := f.get? "center_freq" | throw .valueError
  let some gV := f.get? "gain" | throw .valueError
  let some dV := f.get? "direct" | throw .valueError
  let some utV := f.get? "unix_time" | throw .valueError
  let some jdV := f.get? "jd" | throw .valueError
  let some lstV := f.get? "lst" | throw .valueError
  let some altV := f.get? "alt" | throw .valueError
  let some azV := f.get? "az" | throw .valueError
  let some latV := f.get? "obs_lat" | throw .valueError
  let some lonV := f.get? "obs_lon" | throw .valueError
  let some oaV := f.get? "obs_alt" | throw .valueError
  let sample_rate ← srV.toFloat
  let center_freq ← cfV.toFloat
  let gain ← gV.toFloat
  let direct ← dV.toBool
  let unix_time ← utV.toFloat
  let jd ← jdV.toFloat
  let lst ← lstV.toFloat
  let alt ← altV.toFloat
  let az ← azV.toFloat
  let obs_lat ← latV.toFloat
  let obs_lon ← lonV.toFloat
  let obs_alt ← oaV.toFloat
  let siggen_freq ← loadOptFloat f "siggen_freq"
  let siggen_amp ← loadOptFloat f "siggen_amp"
  let siggen_rf_on ← loadOptBool f "siggen_rf_on"
  return { data := iq, sample_rate, center_freq, gain, direct,
           unix_time, jd, lst, alt, az, obs_lat, obs_lon, obs_alt,
           nblocks := nb.toNat, nsamples := ns.toNat,
           siggen_freq, siggen_amp, siggen_rf_on }

/-! ## `ugradiolab.data.schema` (`CaptureRecord`, `build_record`, `save_obs`)

The second (schema) record variant keeps the raw capture array as stored
by the device — 2-D `(nblocks, nsamples)` in direct mode, 3-D
`(nblocks, nsamples, 2)` in I/Q mode — and writes each optional
signal-generator key independently. -/

structure CaptureRecord where
  data : NpArray
  sample_rate : ℚ
  center_freq : ℚ
  gain : ℚ
  direct : Bool
  unix_time : ℚ
  jd : ℚ
  lst : ℚ
  alt : ℚ
  az : ℚ
  observer_lat : ℚ
  observer_lon : ℚ
  observer_alt : ℚ
  nblocks : ℕ
  nsamples : ℕ
  siggen_freq : Option ℚ := none
  siggen_amp : Option ℚ := none
  siggen_rf_on : Option Bool := none
  deriving DecidableEq, Repr

/-- `np.asarray(data, dtype=np.int8)`. -/
def NpArray.astypeInt8 (a : NpArray) : NpArray :=
  { dtype := .int8, payload := a.payload.mapQ (fun x => (i8cast x : ℚ)) }

/-- `CaptureRecord.to_npz_dict`: each signal-generator key is written under
its own `is not None` test (so a partially-populated record yields a
partially-keyed file). -/
def CaptureRecord.to_npz_dict (r : CaptureRecord) : Npz :=
  [("data", .arr r.data.astypeInt8),
   ("sample_rate", .f64 r.sample_rate), ("center_freq", .f64 r.center_freq),
   ("gain", .f64 r.gain), ("direct", .boolV r.direct),
   ("unix_time", .f64 r.unix_time), ("jd", .f64 r.jd), ("lst", .f64 r.lst),
   ("alt", .f64 r.alt), ("az", .f64 r.az),
   ("observer_lat", .f64 r.observer_lat),
   ("observer_lon", .f64 r.observer_lon),
   ("observer_alt", .f64 r.observer_alt),
   ("nblocks", .i64 (r.nblocks : ℤ)), ("nsamples", .i64 (r.nsamples : ℤ))]
  ++ (match r.siggen_freq with
      | some x => [("siggen_freq", .f64 x)] | none => [])
  ++ (match r.siggen_amp with
      | some x => [("siggen_amp", .f64 x)] | none => [])
  ++ (match r.siggen_rf_on with
      | some b => [("siggen_rf_on", .boolV b)] | none => [])

/-- `schema.build_record`: coerce the capture to int8, reject arrays of
fewer than 2 dimensions, query the device for rates, and populate the
signal-generator triple only when a synth is connected.  The NTP-derived
times (`unix_time`, `jd`, `lst`) come from the external timing module and
are passed in. -/
def build_record {α : Type} (data : NpArray) (sdr : SDRState α)
    (alt_deg az_deg lat lon observer_alt : ℚ)
    (synth : Option Synth) (unix_time jd lst : ℚ) :
    Except PyErr CaptureRecord :=
  let data := data.astypeInt8
  if data.payload.ndim < 2 then .error .valueError
  else .ok
    { data := data,
      sample_rate := sdr.sample_rate, center_freq := sdr.center_freq,
      gain := sdr.gain, direct := sdr.direct,
      unix_time := unix_time, jd := jd, lst := lst,
      alt := alt_deg, az := az_deg,
      observer_lat := lat, observer_lon := lon, observer_alt := observer_alt,
      nblocks := data.payload.shape.headD 0,
      nsamples := (data.payload.shape.drop 1).headD 0,
      siggen_freq := synth.map (fun s => s.freq_mhz * 1000000),
      siggen_amp := synth.map (fun s => s.amp_dbm),
      siggen_rf_on := synth.map (fun s => s.rf) }

/-- `schema.save_obs`: build the record with `synth=None` and serialize. -/
def save_obs {α : Type} (data : NpArray) (sdr : SDRState α)
    (alt_deg az_deg lat lon observer_alt unix_time jd lst : ℚ) :
    Except PyErr Npz :=
  (build_record data sdr alt_deg az_deg lat lon observer_alt none
      unix_time jd lst).map CaptureRecord.to_npz_dict

/-! ## Spectrum engine (`ugradiolab.analysis.spectrum.Spectrum`)

`Spectrum.from_record` is floating-point numpy code; its exact-arithmetic
semantics is embedded over `ℂ`/`ℝ`.  `np.fft.fft` follows numpy's
documented transform `A_k = ∑_t a_t exp(-2πi k t / n)`. -/

/-- The DFT character `exp(-2πi m / n)`. -/
noncomputable def dftChar (n : ℕ) (m : ℤ) : ℂ :=
  Complex.exp (-2 * Real.pi * Complex.I * m / n)

/-- `np.fft.fft` of one block (no normalization, numpy's convention). -/
noncomputable def npFFT {n : ℕ} (x : Fin n → ℂ) (k : Fin n) : ℂ :=
  ∑ t, x t * dftChar n ((k : ℕ) * (t : ℕ))

/-- `np.fft.fftshift` along one axis of length `n`: a cyclic roll by
`n / 2`, placing the zero-frequency bin at the centre
(`fftshift v i = v ((i - n/2) mod n)`). -/
def fftshift {α : Type} {n : ℕ} (v : Fin n → α) (i : Fin n) : α :=
  v ⟨((i : ℕ) + (n - n / 2)) % n,
     Nat.mod_lt _ (Nat.lt_of_le_of_lt (Nat.zero_le _) i.isLt)⟩

/-- One row of `block_psds`: `|fftshift(fft(block))|² / nsamples²`. -/
noncomputable def blockPSDs {nb ns : ℕ} (data : Fin nb → Fin ns → ℂ)
    (b : Fin nb) (j : Fin ns) : ℝ :=
  Complex.normSq (fftshift (npFFT (data b)) j) / (ns : ℝ) ^ 2

/-- `Spectrum.psd`: the per-bin mean of `block_psds` across blocks
(`np.mean(block_psds, axis=0)`). -/
noncomputable def Spectrum.psd {nb ns : ℕ} (data : Fin nb → Fin ns → ℂ)
    (j : Fin ns) : ℝ :=
  (∑ b, blockPSDs data b j) / nb

/-- `Spectrum.total_power`: `float(np.sum(self.psd))`. -/
noncomputable def Spectrum.total_power {nb ns : ℕ}
    (data : Fin nb → Fin ns → ℂ) : ℝ :=
  ∑ j, Spectrum.psd data j

/-- The mean per-sample signal power `mean(|IQ|²)`, computed directly from
the raw samples (the comparison side of the Parseval property). -/
noncomputable def meanSamplePower {nb ns : ℕ}
    (data : Fin nb → Fin ns → ℂ) : ℝ :=
  (∑ b, ∑ t, Complex.normSq (data b t)) / ((nb : ℝ) * ns)

/-! ## Peak detection (`Spectrum.find_peaks` → `scipy.signal.find_peaks`)

`scipy.signal.find_peaks(x, height, prominence, distance)` is embedded
over exact rationals following scipy's documented algorithm: local maxima
(plateaus reported at their midpoint), then the height filter, then the
distance-based selection (highest peaks first), then the prominence
filter.  `scipy.stats.gamma.ppf` — the Gamma-distribution quantile, an
irrational special function — is an oracle parameter `gammaPpf`. -/

/-- Scan right from `k` past samples equal to `v`, stopping at `iMax`
(the `i_ahead` loop of `_local_maxima_1d`); structural recursion on the
loop bound `iMax - k`. -/
def plateauEndFuel (x : List ℚ) (v : ℚ) (iMax : ℕ) :
    ℕ → ℕ → ℕ
  | 0, k => k
  | fuel + 1, k =>
      if k < iMax ∧ x.getD k 0 = v then plateauEndFuel x v iMax fuel (k + 1)
      else k

def plateauEnd (x : List ℚ) (v : ℚ) (iMax : ℕ) (k : ℕ) : ℕ :=
  plateauEndFuel x v iMax (iMax - k) k

/-- One candidate of `_local_maxima_1d`: index `i` yields a peak midpoint
when `x[i-1] < x[i]` (interior rising edge) and the first differing sample
to the right of the plateau of `x[i]` is strictly lower; the reported
index is the plateau midpoint `(i + j - 1) / 2` for plateau end `j`. -/
def lmProbe (x : List ℚ) (i : ℕ) : Option ℕ :=
  if 1 ≤ i ∧ i + 1 < x.length ∧ x.getD (i - 1) 0 < x.getD i 0 then
    if x.getD (plateauEnd x (x.getD i 0) (x.length - 1) (i + 1)) 0
        < x.getD i 0 then
      some ((i + plateauEnd x (x.getD i 0) (x.length - 1) (i + 1) - 1) / 2)
    else none
  else none

/-- `scipy.signal._peak_finding_utils._local_maxima_1d`: interior indices
whose value strictly exceeds both the previous sample and the first
differing sample to the right; plateaus yield their midpoint.  Edges are
never peaks. -/
def localMaxIndices (x : List ℚ) : List ℕ :=
  (List.range x.length).filterMap (lmProbe x)

/-- Stable insertion of an index under a strict-total `le` test. -/
def insertIdx (le : ℕ → ℕ → Bool) (a : ℕ) : List ℕ → List ℕ
  | [] => [a]
  | b :: l => if le a b then a :: b :: l else b :: insertIdx le a l

def sortIdx (le : ℕ → ℕ → Bool) (l : List ℕ) : List ℕ :=
  l.foldr (insertIdx le) []

/-- `np.argsort(priority)`, ascending; ties broken by position. -/
def argsortQ (priority : List ℚ) : List ℕ :=
  sortIdx (fun a b => decide (priority.getD a 0 < priority.getD b 0 ∨
      (priority.getD a 0 = priority.getD b 0 ∧ a ≤ b)))
    (List.range priority.length)

/-- The leftward clearing loop of `_select_by_peak_distance` (`k = j-1`
downward while `peaks[j] - peaks[k] < distance`). -/
def clearLeftAux (peaks : List ℕ) (dist pj : ℕ) : ℕ → List Bool → List Bool
  | k, keep =>
      if pj - peaks.getD k 0 < dist then
        let keep := keep.set k false
        match k with
        | 0 => keep
        | k' + 1 => clearLeftAux peaks dist pj k' keep
      else keep

/-- The rightward clearing loop (`k = j+1` upward); structural recursion
on the loop bound `n - k`. -/
def clearRightFuel (peaks : List ℕ) (dist pj n : ℕ) :
    ℕ → ℕ → List Bool → List Bool
  | 0, _, keep => keep
  | fuel + 1, k, keep =>
      if k < n ∧ peaks.getD k 0 - pj < dist then
        clearRightFuel peaks dist pj n fuel (k + 1) (keep.set k false)
      else keep

def clearRightAux (peaks : List ℕ) (dist pj n : ℕ) (k : ℕ)
    (keep : List Bool) : List Bool :=
  clearRightFuel peaks dist pj n (n - k) k keep

/-- One round of `_select_by_peak_distance` for the peak at position `j`
(skipped if already cleared; clears lower-priority neighbours closer than
`dist` on both sides, never itself). -/
def selectStep (peaks : List ℕ) (dist : ℕ) (keep : List Bool) (j : ℕ) :
    List Bool :=
  if keep.getD j true = false then keep
  else
    let pj := peaks.getD j 0
    let keep :=
      match j with
      | 0 => keep
      | j' + 1 => clearLeftAux peaks dist pj j' keep
    clearRightAux peaks dist pj peaks.length (j + 1) keep

/-- `scipy.signal._peak_finding_utils._select_by_peak_distance`: process
peaks from highest priority to lowest, keep survivors in position order. -/
def selectByPeakDistance (peaks : List ℕ) (priority : List ℚ) (dist : ℕ) :
    List ℕ :=
  let order := argsortQ priority
  let keep := order.reverse.foldl (selectStep peaks dist)
    (List.replicate peaks.length true)
  ((List.range peaks.length).filter (fun i => keep.getD i false)).map
    (fun i => peaks.getD i 0)

/-- Index at which the leftward base scan of `_peak_prominences` stops:
the nearest strictly higher sample left of `p`, or the signal edge. -/
def leftStop (x : List ℚ) (p : ℕ) : ℕ :=
  (((List.range p).filter (fun l => decide (x.getD p 0 < x.getD l 0))).getLastD 0)

/-- Rightward analogue of `leftStop`. -/
def rightStop (x : List ℚ) (p : ℕ) : ℕ :=
  ((((List.range x.length).drop (p + 1)).filter
      (fun l => decide (x.getD p 0 < x.getD l 0))).headD (x.length - 1))

/-- Minimum of `x` over the index interval `[a, b]`. -/
def minOn (x : List ℚ) (a b : ℕ) : ℚ :=
  (List.range (b + 1 - a)).foldl (fun m t => min m (x.getD (a + t) 0))
    (x.getD a 0)

/-- `scipy.signal.peak_prominences` (full-window `wlen=None`): peak height
minus the higher of the two base minima. -/
def prominenceAt (x : List ℚ) (p : ℕ) : ℚ :=
  x.getD p 0 - max (minOn x (leftStop x p) p) (minOn x p (rightStop x p))

/-- `scipy.signal.find_peaks(x, height=·, prominence=·, distance=·)`,
conditions applied in scipy's order: height, distance, prominence. -/
def scipyFindPeaks (x : List ℚ) (height prominence : ℚ) (distance : ℕ) :
    List ℕ :=
  let mids := localMaxIndices x
  let afterHeight := mids.filter (fun p => decide (height ≤ x.getD p 0))
  let afterDist := selectByPeakDistance afterHeight
    (afterHeight.map (fun p => x.getD p 0)) distance
  afterDist.filter (fun p => decide (prominence ≤ prominenceAt x p))

def insertQ (a : ℚ) : List ℚ → List ℚ
  | [] => [a]
  | b :: l => if a ≤ b then a :: b :: l else b :: insertQ a l

def sortQ (x : List ℚ) : List ℚ := x.foldr insertQ []

/-- `np.median`: middle order statistic, or the mean of the two middle
order statistics for even length. -/
def npMedian (x : List ℚ) : ℚ :=
  let s := sortQ x
  let n := x.length
  if n % 2 = 1 then s.getD (n / 2) 0
  else (s.getD (n / 2 - 1) 0 + s.getD (n / 2) 0) / 2

/-- `Spectrum.find_peaks` (analysis/spectrum.py lines 86–137), reported as
the list of detected bin indices: noise floor = median of the PSD,
Bonferroni-corrected per-bin rate, Gamma-quantile threshold, then
`scipy.signal.find_peaks` with `height=threshold`,
`prominence=threshold - noise_mean`, `distance=min_distance`. -/
def Spectrum.findPeaksIdx (gammaPpf : ℚ → ℕ → ℚ → ℚ) (psd : List ℚ)
    (nblocks : ℕ) (p_false_alarm : ℚ) (min_distance : ℕ) : List ℕ :=
  let nfreqs := psd.length
  let noise_mean := npMedian psd
  let p_per_bin := p_false_alarm / nfreqs
  let threshold := gammaPpf (1 - p_per_bin) nblocks (noise_mean / nblocks)
  scipyFindPeaks psd threshold (threshold - noise_mean) min_distance

/-! ## Concrete instances used by witnesses and counterexamples -/

/-- A stub device whose blocks are marked by their position (block `j` is
`[j]`), so the first returned block is distinguishable. -/
def c7sdr : SDRState (List ℚ) :=
  { direct_sampling_q := true, center_freq := 0, sample_rate := 0, gain := 0,
    direct := true,
    capture_data := fun _ k => .ok ((List.range k).map (fun j => [(j : ℚ)])) }

/-- The calibration experiment of the repo's own
`test_cal_experiment_turns_rf_off_if_capture_fails`. -/
def c1exp : CalExperiment :=
  { nsamples := 16, nblocks := 2, direct := false,
    outdir := ".", pfx := "CAL-FAIL",
    siggen_freq_mhz := 14212058 / 10000, siggen_amp_dbm := -35,
    alt_deg := 90, az_deg := 0 }

/-- A device whose `capture_data` raises. -/
def c1sdr : SDRState Unit :=
  { direct_sampling_q := true, center_freq := 0, sample_rate := 0, gain := 0,
    direct := true, capture_data := fun _ _ => .error () }

/-- Tone source initially idle with RF off. -/
def c1synth : Synth := { freq_mhz := 0, amp_dbm := 0, rf := false }

/-- The spec's concrete record scenario: `nblocks=3, nsamples=8`, all-zero
I/Q samples, `direct=false`, `alt=90.0`, `az=0.0`, no tone fields. -/
def c5rec : Record :=
  { data := List.replicate 3 (List.replicate 8 ((0 : ℚ), (0 : ℚ))),
    sample_rate := 2560000, center_freq := 1420000000, gain := 20,
    direct := false, unix_time := 12345, jd := 2460000,
    lst := 7, alt := 90, az := 0,
    obs_lat := 37, obs_lon := -122, obs_alt := 100,
    nblocks := 3, nsamples := 8 }

/-- A crafted file with all required keys but only ONE of the three
optional signal-generator keys (`siggen_freq` alone). -/
def c6file : Npz :=
  [("data", .arr ⟨.int8, .d3 [[[0, 0]]]⟩),
   ("sample_rate", .f64 0), ("center_freq", .f64 0), ("gain", .f64 0),
   ("direct", .boolV true), ("unix_time", .f64 0), ("jd", .f64 0),
   ("lst", .f64 0), ("alt", .f64 0), ("az", .f64 0),
   ("obs_lat", .f64 0), ("obs_lon", .f64 0), ("obs_alt", .f64 0),
   ("nblocks", .i64 1), ("nsamples", .i64 1),
   ("siggen_freq", .f64 5)]

/-- What `Record.load` returns on `c6file`: a partial triple. -/
def c6loaded : Record :=
  { data := [[(0, 0)]], sample_rate := 0, center_freq := 0, gain := 0,
    direct := true, unix_time := 0, jd := 0, lst := 0, alt := 0, az := 0,
    obs_lat := 0, obs_lon := 0, obs_alt := 0, nblocks := 1, nsamples := 1,
    siggen_freq := some 5, siggen_amp := none, siggen_rf_on := none }

/-- A well-formed DIRECT-mode capture file in the schema saver's layout:
`data` of shape `(nblocks, nsamples) = (1, 3)`, int8, `direct = true`. -/
def c10file : Npz :=
  [("data", .arr ⟨.int8, .d2 [[0, 0, 0]]⟩),
   ("sample_rate", .f64 0), ("center_freq", .f64 0), ("gain", .f64 0),
   ("direct", .boolV true), ("unix_time", .f64 0), ("jd", .f64 0),
   ("lst", .f64 0), ("alt", .f64 0), ("az", .f64 0),
   ("obs_lat", .f64 0), ("obs_lon", .f64 0), ("obs_alt", .f64 0),
   ("nblocks", .i64 1), ("nsamples", .i64 3)]

/-- A well-formed I/Q-layout file parameterized by its `direct` flag. -/
def c10iqfile (b : Bool) : Npz :=
  [("data", .arr ⟨.int8, .d3 [[[0, 0]]]⟩),
   ("sample_rate", .f64 0), ("center_freq", .f64 0), ("gain", .f64 0),
   ("direct", .boolV b), ("unix_time", .f64 0), ("jd", .f64 0),
   ("lst", .f64 0), ("alt", .f64 0), ("az", .f64 0),
   ("obs_lat", .f64 0), ("obs_lon", .f64 0), ("obs_alt", .f64 0),
   ("nblocks", .i64 1), ("nsamples", .i64 1)]

/-- The PSD of the C9 counterexample: noise floor 1 with two nearby narrow
peaks at bins 5 (height 10) and 7 (height 10.5) above a 9.5 saddle. -/
def c9psd : List ℚ := [1, 1, 1, 1, 1, 10, 19/2, 21/2, 1, 1, 1]

/-- The peak set as the claim words it: the local maxima at or above the
threshold (the separation clause is vacuous at `min_distance = 1`).
Spec-side definition, used only to compare against the embedded code. -/
def claimedPeaks (x : List ℚ) (threshold : ℚ) : List ℕ :=
  (localMaxIndices x).filter (fun p => decide (threshold ≤ x.getD p 0))

/-! ## Theorems -/

/-- Helper: the cadence wait never touches the accumulated paths. -/
theorem cadencePhase_paths (c : Option ℚ) (k : ExpKind) (st : QState) :
    (cadencePhase c k st).paths = st.paths := by
  rcases st with ⟨clk, obst, paths, trace⟩
  unfold cadencePhase
  rcases c with _ | c <;> rcases obst with _ | t0 <;>
    (dsimp only; all_goals first | rfl | (split_ifs <;> rfl))

/-- Helper: the cadence wait never resets the cadence reference. -/
theorem cadencePhase_obs_start (c : Option ℚ) (k : ExpKind) (st : QState) :
    (cadencePhase c k st).obs_start = st.obs_start := by
  rcases st with ⟨clk, obst, paths, trace⟩
  unfold cadencePhase
  rcases c with _ | c <;> rcases obst with _ | t0 <;>
    (dsimp only; all_goals first | rfl | (split_ifs <;> rfl))

/-- Helper: the cadence wait only moves the clock forward. -/
theorem cadencePhase_clock_le (c : Option ℚ) (k : ExpKind) (st : QState) :
    st.clock ≤ (cadencePhase c k st).clock := by
  rcases st with ⟨clk, obst, paths, trace⟩
  unfold cadencePhase
  rcases c with _ | c <;> rcases obst with _ | t0 <;> dsimp only
  · exact le_refl _
  · exact le_refl _
  · exact le_refl _
  · split_ifs with h1 h2
    · dsimp only
      linarith [h2]
    · exact le_refl _
    · exact le_refl _

/-- Helper: the cadence wait adds at most a sleep event to the trace. -/
theorem cadencePhase_trace (c : Option ℚ) (k : ExpKind) (st : QState) :
    ∀ ev ∈ (cadencePhase c k st).trace,
      ev ∈ st.trace ∨ ∃ w, ev = QEv.sleep w := by
  rcases st with ⟨clk, obst, paths, trace⟩
  unfold cadencePhase
  rcases c with _ | c <;> rcases obst with _ | t0 <;> dsimp only
  · exact fun ev h => Or.inl h
  · exact fun ev h => Or.inl h
  · exact fun ev h => Or.inl h
  · split_ifs with h1 h2
    · intro ev hev
      simp only [List.mem_append, List.mem_singleton] at hev
      rcases hev with h | h
      · exact Or.inl h
      · exact Or.inr ⟨_, h⟩
    · exact fun ev h => Or.inl h
    · exact fun ev h => Or.inl h

/-- **C7**: for every experiment run with `nblocks = N`, the capture step
requests `N + 1` blocks from the device and unconditionally discards the
first returned block, so the data used downstream is exactly the last `N`
blocks the device returned. -/
theorem c7_capture_requests_extra_and_discards_first {α : Type}
    (sdr : SDRState α) (ns nb : ℕ) (blocks : List α)
    (hdev : sdr.capture_data ns (nb + 1) = .ok blocks)
    (hlen : blocks.length = nb + 1) :
    _capture sdr ns nb = .ok (blocks.drop 1) ∧
    (blocks.drop 1).length = nb ∧
    blocks.take 1 ++ blocks.drop 1 = blocks := by
  refine ⟨?_, ?_, List.take_append_drop 1 blocks⟩
  · simp [_capture, hdev, Except.map, List.drop_one]
  · simp [hlen]

/-- Witness for C7: the marked stub device returns `[[0],[1],[2]]` for a
request of 3 blocks; `capture(nblocks=2)` keeps exactly `[[1],[2]]`. -/
theorem c7_witness :
    _capture c7sdr 16 2 = .ok (([[0], [1], [2]] : List (List ℚ)).drop 1) ∧
    (([[0], [1], [2]] : List (List ℚ)).drop 1).length = 2 ∧
    ([[0], [1], [2]] : List (List ℚ)).take 1 ++
      ([[0], [1], [2]] : List (List ℚ)).drop 1 =
      ([[0], [1], [2]] : List (List ℚ)) :=
  c7_capture_requests_extra_and_discards_first c7sdr 16 2 [[0], [1], [2]]
    (by norm_num [c7sdr, List.range_succ]) (by rfl)

/-- **C1** (evaluating the code at the failing input): when the device's
capture call raises during a `CalExperiment.run` with a tone source
supplied, the exception propagates from line 93 of `experiment.py` before
the `synth.rf_off()` of line 94, leaving RF output **on** — contradicting
the claim (and the repository's own
`test_cal_experiment_turns_rf_off_if_capture_fails`). -/
theorem c1_rf_left_on_when_capture_raises :
    (c1exp.run c1sdr (some c1synth) "20260101_000000").result =
      .error .captureError ∧
    (c1exp.run c1sdr (some c1synth) "20260101_000000").synth =
      some { freq_mhz := 14212058 / 10000, amp_dbm := -35, rf := true } :=
  ⟨rfl, rfl⟩

/-- **C3**: with a cadence set, before starting a cadence-counted
experiment whose predecessor started `t = clock − t0` seconds earlier the
runner sleeps exactly `cadence_sec − t` when `t < cadence_sec` and does
not wait at all when `t ≥ cadence_sec`; and when the step then runs, the
cadence reference handed to the remaining steps is the post-wait **start**
clock of this run, unaffected by the run's duration. -/
theorem c3_cadence_wait_and_reset (c : ℚ) (hc : 0 < c) (st : QState)
    (t0 : ℚ) (hstart : st.obs_start = some t0) (e : QExp)
    (he : e.kind = .obs) (rest : List QExp) (i : ℕ) (resp : ℕ → String)
    (synth : Option Synth) (p : String) (hres : e.result = .ok p) :
    (st.clock - t0 < c →
      cadencePhase (some c) e.kind st =
        { st with clock := st.clock + (c - (st.clock - t0)),
                  trace := st.trace ++ [QEv.sleep (c - (st.clock - t0))] }) ∧
    (c ≤ st.clock - t0 → cadencePhase (some c) e.kind st = st) ∧
    QueueRunner.runAux synth false (some c) resp (e :: rest) i st =
      QueueRunner.runAux synth false (some c) resp rest (i + 1)
        { clock := (cadencePhase (some c) e.kind st).clock + e.dur,
          obs_start := some (cadencePhase (some c) e.kind st).clock,
          paths := (cadencePhase (some c) e.kind st).paths ++ [p],
          trace := (cadencePhase (some c) e.kind st).trace ++
            [QEv.runStart i e.kind] } := by
  have hcne : c ≠ 0 := ne_of_gt hc
  refine ⟨?_, ?_, ?_⟩
  · intro hlt
    unfold cadencePhase
    rw [hstart]
    dsimp only
    rw [if_pos ⟨hcne, he⟩]
    rw [if_pos (by linarith)]
  · intro hge
    unfold cadencePhase
    rw [hstart]
    dsimp only
    rw [if_pos ⟨hcne, he⟩]
    rw [if_neg (by simp only [not_lt]; linarith)]
  · conv_lhs => rw [QueueRunner.runAux]
    rw [if_neg (by rw [he]; simp)]
    simp only [Bool.false_eq_true, false_and, if_false, he, if_pos rfl, hres,
      if_true]

/-- Witness for C3, mirroring the spec scenario `cadence_sec = 120` with a
previous cadence-counted start 10 seconds ago: the runner sleeps 110 s and
resets the reference to the post-wait clock. -/
theorem c3_witness :
    ((⟨10, some 0, [], []⟩ : QState).clock - 0 < 120 →
      cadencePhase (some 120) (QExp.mk ExpKind.obs 5 (.ok "p")).kind
          ⟨10, some 0, [], []⟩ =
        { (⟨10, some 0, [], []⟩ : QState) with
            clock := (10 : ℚ) + (120 - (10 - 0)),
            trace := [] ++ [QEv.sleep (120 - (10 - 0))] }) ∧
    ((120 : ℚ) ≤ (⟨10, some 0, [], []⟩ : QState).clock - 0 →
      cadencePhase (some 120) (QExp.mk ExpKind.obs 5 (.ok "p")).kind
          ⟨10, some 0, [], []⟩ = ⟨10, some 0, [], []⟩) ∧
    QueueRunner.runAux none false (some 120) (fun _ => "")
        [QExp.mk ExpKind.obs 5 (.ok "p")] 0 ⟨10, some 0, [], []⟩ =
      QueueRunner.runAux none false (some 120) (fun _ => "") [] 1
        { clock := (cadencePhase (some 120)
            (QExp.mk ExpKind.obs 5 (.ok "p")).kind ⟨10, some 0, [], []⟩).clock
              + (QExp.mk ExpKind.obs 5 (.ok "p")).dur,
          obs_start := some (cadencePhase (some 120)
            (QExp.mk ExpKind.obs 5 (.ok "p")).kind
              ⟨10, some 0, [], []⟩).clock,
          paths := (cadencePhase (some 120)
            (QExp.mk ExpKind.obs 5 (.ok "p")).kind
              ⟨10, some 0, [], []⟩).paths ++ ["p"],
          trace := (cadencePhase (some 120)
            (QExp.mk ExpKind.obs 5 (.ok "p")).kind
              ⟨10, some 0, [], []⟩).trace ++ [QEv.runStart 0 ExpKind.obs] } :=
  c3_cadence_wait_and_reset 120 (by norm_num) ⟨10, some 0, [], []⟩ 0 rfl
    (QExp.mk ExpKind.obs 5 (.ok "p")) rfl [] 0 (fun _ => "") none "p" rfl

/-- **C4**: a skipped step runs no capture and produces no file, while the
step index advances to the next experiment and the cadence bookkeeping
moves on unchanged (the wall clock keeps advancing, the cadence reference
is neither reset nor rolled back, and at most a cadence sleep is added to
the trace). -/
theorem c4_skip_omits_step_but_advances (synth : Option Synth)
    (cadence_sec : Option ℚ) (resp : ℕ → String) (e : QExp)
    (rest : List QExp) (i : ℕ) (st : QState)
    (hns : ¬(e.kind = .cal ∧ synth.isNone = true))
    (hs : parseAnswer (resp i) = "s") :
    QueueRunner.runAux synth true cadence_sec resp (e :: rest) i st =
      QueueRunner.runAux synth true cadence_sec resp rest (i + 1)
        (cadencePhase cadence_sec e.kind st) ∧
    (cadencePhase cadence_sec e.kind st).paths = st.paths ∧
    (cadencePhase cadence_sec e.kind st).obs_start = st.obs_start ∧
    st.clock ≤ (cadencePhase cadence_sec e.kind st).clock ∧
    (∀ ev ∈ (cadencePhase cadence_sec e.kind st).trace,
      ev ∈ st.trace ∨ ∃ w, ev = QEv.sleep w) := by
  refine ⟨?_, cadencePhase_paths _ _ _, cadencePhase_obs_start _ _ _,
    cadencePhase_clock_le _ _ _, cadencePhase_trace _ _ _⟩
  conv_lhs => rw [QueueRunner.runAux]
  rw [if_neg hns]
  simp only [hs]
  rw [if_neg (by simp), if_pos (by simp)]

/-- Helper for C2: under a missing tone source, a queue still containing a
calibration step exits with the configuration failure, and no calibration
`exp.run` is ever invoked, provided the operator never quits early and no
earlier experiment raises. -/
theorem c2_aux (confirm : Bool) (cadence_sec : Option ℚ) (resp : ℕ → String)
    (hq : ∀ n, parseAnswer (resp n) ≠ "q") :
    ∀ (exps : List QExp) (i : ℕ) (st : QState),
      (∃ e ∈ exps, e.kind = ExpKind.cal) →
      (∀ e ∈ exps, ∃ p, e.result = Except.ok p) →
      (∀ ev ∈ st.trace, ev.isCalRun = false) →
      (QueueRunner.runAux none confirm cadence_sec resp exps i st).1 =
        Except.error QErr.configError ∧
      ∀ ev ∈ (QueueRunner.runAux none confirm cadence_sec resp
          exps i st).2.trace, ev.isCalRun = false := by
  intro exps
  induction exps with
  | nil => intro i st hcal _ _; simp at hcal
  | cons e rest ih =>
    intro i st hcal hok htr
    by_cases hk : e.kind = ExpKind.cal
    · rw [QueueRunner.runAux, if_pos ⟨hk, rfl⟩]
      exact ⟨rfl, htr⟩
    · have hcal' : ∃ e' ∈ rest, e'.kind = ExpKind.cal := by
        rcases hcal with ⟨e', he', hke'⟩
        rcases List.mem_cons.mp he' with rfl | hm
        · exact absurd hke' hk
        · exact ⟨e', hm, hke'⟩
      have hok' : ∀ e' ∈ rest, ∃ p, e'.result = Except.ok p :=
        fun e' h => hok e' (List.mem_cons_of_mem _ h)
      have htr1 : ∀ ev ∈ (cadencePhase cadence_sec e.kind st).trace,
          ev.isCalRun = false := by
        intro ev hev
        rcases cadencePhase_trace cadence_sec e.kind st ev hev with h | ⟨w, rfl⟩
        · exact htr ev h
        · rfl
      rw [QueueRunner.runAux, if_neg (fun hcon => hk hcon.1)]
      dsimp only
      by_cases h1 : confirm = true ∧ parseAnswer (resp i) = "q"
      · exact absurd h1.2 (hq i)
      rw [if_neg h1]
      by_cases h2 : confirm = true ∧ parseAnswer (resp i) = "s"
      · rw [if_pos h2]
        exact ih (i + 1) _ hcal' hok' htr1
      rw [if_neg h2]
      obtain ⟨p, hp⟩ := hok e (List.mem_cons_self _ _)
      rw [hp]
      dsimp only
      refine ih (i + 1) _ hcal' hok' ?_
      intro ev hev
      dsimp only at hev
      rw [List.mem_append] at hev
      rcases hev with hev | hev
      · have hsame :
            (if e.kind = ExpKind.obs
             then { cadencePhase cadence_sec e.kind st with
                      obs_start :=
                        some (cadencePhase cadence_sec e.kind st).clock }
             else cadencePhase cadence_sec e.kind st).trace =
            (cadencePhase cadence_sec e.kind st).trace := by
          split_ifs <;> rfl
        rw [hsame] at hev
        exact htr1 ev hev
      · rw [List.mem_singleton] at hev
        subst hev
        simp [QEv.isCalRun, hk]

/-- **C2**: if the experiment list contains a calibration step and no tone
source was supplied, `QueueRunner.run` raises the ValueError of queue.py
lines 51–55 (the `ConfigurationError`-class failure) at that step, before
its confirmation prompt, cadence wait, or capture — so no calibration
`exp.run` (hence no calibration capture) is ever attempted.  Provisos: the
operator does not quit at an earlier step and no earlier experiment raises
(otherwise the queue stops before reaching the calibration step, and still
no calibration capture occurs). -/
theorem c2_missing_synth_fails_before_cal_capture (exps : List QExp)
    (confirm : Bool) (cadence_sec : Option ℚ) (resp : ℕ → String) (start : ℚ)
    (hcal : ∃ e ∈ exps, e.kind = ExpKind.cal)
    (hq : ∀ n, parseAnswer (resp n) ≠ "q")
    (hok : ∀ e ∈ exps, ∃ p, e.result = Except.ok p) :
    (QueueRunner.run exps none confirm cadence_sec resp start).1 =
      Except.error QErr.configError ∧
    ∀ ev ∈ (QueueRunner.run exps none confirm cadence_sec resp
        start).2.trace, ev.isCalRun = false :=
  c2_aux confirm cadence_sec resp hq exps 0 ⟨start, none, [], []⟩ hcal hok
    (by intro ev hev; simp at hev)

/-- Witness for C2, the spec's concrete scenario: a queue
`[CalExperiment, ObsExperiment]` run with `synth=None` raises the
configuration failure and attempts no calibration capture. -/
theorem c2_witness :
    (QueueRunner.run
        [QExp.mk ExpKind.cal 1 (.ok "c"), QExp.mk ExpKind.obs 1 (.ok "o")]
        none false none (fun _ => "") 0).1 =
      Except.error QErr.configError ∧
    ∀ ev ∈ (QueueRunner.run
        [QExp.mk ExpKind.cal 1 (.ok "c"), QExp.mk ExpKind.obs 1 (.ok "o")]
        none false none (fun _ => "") 0).2.trace, ev.isCalRun = false :=
  c2_missing_synth_fails_before_cal_capture
    [QExp.mk ExpKind.cal 1 (.ok "c"), QExp.mk ExpKind.obs 1 (.ok "o")]
    false none (fun _ => "") 0
    ⟨QExp.mk ExpKind.cal 1 (.ok "c"), by simp, rfl⟩
    (by intro n; exact (by decide : parseAnswer "" ≠ "q"))
    (by
      intro e he
      simp only [List.mem_cons, List.not_mem_nil, or_false] at he
      rcases he with rfl | rfl <;> exact ⟨_, rfl⟩)

/-- Witness for C4: a two-step queue where the operator skips the first
step; the skipped step contributes nothing but the index and clock move
on. -/
theorem c4_witness :
    (QueueRunner.runAux (some c1synth) true none (fun _ => " S ")
        [QExp.mk ExpKind.cal 3 (.ok "a"), QExp.mk ExpKind.obs 4 (.ok "b")] 0
        ⟨0, none, [], []⟩ =
      QueueRunner.runAux (some c1synth) true none (fun _ => " S ")
        [QExp.mk ExpKind.obs 4 (.ok "b")] 1
        (cadencePhase none (QExp.mk ExpKind.cal 3 (.ok "a")).kind
          ⟨0, none, [], []⟩)) ∧
    (cadencePhase none (QExp.mk ExpKind.cal 3 (.ok "a")).kind
        ⟨0, none, [], []⟩).paths = (⟨0, none, [], []⟩ : QState).paths ∧
    (cadencePhase none (QExp.mk ExpKind.cal 3 (.ok "a")).kind
        ⟨0, none, [], []⟩).obs_start =
      (⟨0, none, [], []⟩ : QState).obs_start ∧
    (⟨0, none, [], []⟩ : QState).clock ≤
      (cadencePhase none (QExp.mk ExpKind.cal 3 (.ok "a")).kind
        ⟨0, none, [], []⟩).clock ∧
    (∀ ev ∈ (cadencePhase none (QExp.mk ExpKind.cal 3 (.ok "a")).kind
        ⟨0, none, [], []⟩).trace,
      ev ∈ (⟨0, none, [], []⟩ : QState).trace ∨ ∃ w, ev = QEv.sleep w) :=
  c4_skip_omits_step_but_advances (some c1synth) none (fun _ => " S ")
    (QExp.mk ExpKind.cal 3 (.ok "a")) [QExp.mk ExpKind.obs 4 (.ok "b")] 0
    ⟨0, none, [], []⟩ (by simp) (by decide)

/-- Helper: reduction of an `Except` bind at an `ok` value. -/
theorem exceptBind_ok {ε α β : Type} (a : α) (f : α → Except ε β) :
    (Except.ok a : Except ε α) >>= f = f a := rfl

/-- Helper: an `Except` bind as an explicit match, for case splitting. -/
theorem exceptBind_def {ε α β : Type} (m : Except ε α) (f : α → Except ε β) :
    m >>= f = match m with
      | .error e => Except.error e
      | .ok a => f a := by
  cases m <;> rfl

/-- Helper: `throw` on `Except` is `Except.error`. -/
theorem exceptThrow_def {ε α : Type} (e : ε) :
    (throw e : Except ε α) = Except.error e := rfl

/-- Helper: `pure` on `Except` is `Except.ok`. -/
theorem exceptPure_def {ε α : Type} (a : α) :
    (pure a : Except ε α) = Except.ok a := rfl

/-- Helper: the int8 round trip is the identity on int8-valued rows. -/
theorem row_i8_id (row : List (ℚ × ℚ))
    (h : ∀ z ∈ row, (i8cast z.1 : ℚ) = z.1 ∧ (i8cast z.2 : ℚ) = z.2) :
    row.map (fun z => ((i8cast z.1 : ℚ), (i8cast z.2 : ℚ))) = row := by
  induction row with
  | nil => rfl
  | cons z zs ihz =>
    simp only [List.map_cons, List.cons.injEq]
    refine ⟨?_, ihz (fun z' hz' => h z' (List.mem_cons_of_mem _ hz'))⟩
    obtain ⟨h1, h2⟩ := h z (List.mem_cons_self _ _)
    exact Prod.ext h1 h2

/-- Helper: the int8 round trip is the identity on int8-valued data. -/
theorem map_i8_id (l : List (List (ℚ × ℚ)))
    (h : ∀ row ∈ l, ∀ z ∈ row,
      (i8cast z.1 : ℚ) = z.1 ∧ (i8cast z.2 : ℚ) = z.2) :
    l.map (fun row =>
      row.map (fun z => ((i8cast z.1 : ℚ), (i8cast z.2 : ℚ)))) = l := by
  induction l with
  | nil => rfl
  | cons row rest ih =>
    simp only [List.map_cons, List.cons.injEq]
    exact ⟨row_i8_id row (h row (List.mem_cons_self _ _)),
      ih (fun row' hrow' => h row' (List.mem_cons_of_mem _ hrow'))⟩

/-- **C5**: for every valid capture record (data rectangular and matching
the scalar `nblocks`/`nsamples`, at least one block and one sample, tone
triple all-or-none), `save` then `load` succeeds, reproduces every scalar
metadata field exactly — sample_rate, center_freq, gain, direct,
unix_time, jd, lst, alt, az, obs_lat/obs_lon/obs_alt, nblocks, nsamples,
and the tone triple when present — and reproduces the sample array through
the int8 cast; when the samples are int8-valued (as for every record built
from a hardware capture) the array round-trips exactly. -/
theorem c5_save_load_round_trip (r : Record)
    (hnb : r.data.length = r.nblocks)
    (hrows : ∀ row ∈ r.data, row.length = r.nsamples)
    (hnb0 : 0 < r.nblocks) (hns0 : 0 < r.nsamples)
    (htriple : r.uses_synth = true ∨
      (r.siggen_freq = none ∧ r.siggen_amp = none ∧ r.siggen_rf_on = none)) :
    Record.load r.save =
      Except.ok { r with data := r.data.map (fun row =>
        row.map (fun z => ((i8cast z.1 : ℚ), (i8cast z.2 : ℚ)))) } ∧
    ((∀ row ∈ r.data, ∀ z ∈ row,
        (i8cast z.1 : ℚ) = z.1 ∧ (i8cast z.2 : ℚ) = z.2) →
      Record.load r.save = Except.ok r) := by
  have hmain : Record.load r.save =
      Except.ok { r with data := r.data.map (fun row =>
        row.map (fun z => ((i8cast z.1 : ℚ), (i8cast z.2 : ℚ)))) } := by
    obtain ⟨row0, drest, hd⟩ : ∃ row0 drest, r.data = row0 :: drest := by
      rcases hcons : r.data with _ | ⟨a, l⟩
      · rw [hcons] at hnb; simp at hnb; omega
      · exact ⟨a, l, rfl⟩
    obtain ⟨z0, zrest, hrow0⟩ : ∃ z0 zrest, row0 = z0 :: zrest := by
      rcases hcons : row0 with _ | ⟨a, l⟩
      · have := hrows row0 (by rw [hd]; exact List.mem_cons_self _ _)
        rw [hcons] at this; simp at this; omega
      · exact ⟨a, l, rfl⟩
    have hlen1 : drest.length + 1 = r.nblocks := by
      rw [hd] at hnb; simpa using hnb
    have hlen2 : zrest.length + 1 = r.nsamples := by
      have := hrows row0 (by rw [hd]; exact List.mem_cons_self _ _)
      rw [hrow0] at this; simpa using this
    have hc1 : ((drest.length : ℤ) + 1) = (r.nblocks : ℤ) := by
      exact_mod_cast hlen1
    have hc2 : ((zrest.length : ℤ) + 1) = (r.nsamples : ℤ) := by
      exact_mod_cast hlen2
    rcases htriple with ht | ⟨ht1, ht2, ht3⟩
    · have hsplit : r.siggen_freq.isSome = true ∧
          r.siggen_amp.isSome = true ∧ r.siggen_rf_on.isSome = true := by
        unfold Record.uses_synth at ht
        simpa [Bool.and_eq_true, and_assoc] using ht
      obtain ⟨fr, hfr⟩ := Option.isSome_iff_exists.mp hsplit.1
      obtain ⟨am, ham⟩ := Option.isSome_iff_exists.mp hsplit.2.1
      obtain ⟨rb, hrb⟩ := Option.isSome_iff_exists.mp hsplit.2.2
      simp only [Record.save, Record._to_npz_dict, hfr, ham, hrb]
      rw [hd, hrow0]
      simp [Record.load, Npz.get?, _REQUIRED_KEYS, loadOptFloat, loadOptBool,
        NpVal.toInt, NpVal.toFloat, NpVal.toBool, NpVal.ndim, NpVal.dtype,
        NpVal.shape, NpPayload.ndim, NpPayload.shape, NpVal.d3rows,
        List.find?, Except.map, Function.comp, hc1, hc2, Int.toNat_natCast,
        exceptBind_ok, hfr, ham, hrb]
    · simp only [Record.save, Record._to_npz_dict, ht1, ht2, ht3]
      rw [hd, hrow0]
      simp [Record.load, Npz.get?, _REQUIRED_KEYS, loadOptFloat, loadOptBool,
        NpVal.toInt, NpVal.toFloat, NpVal.toBool, NpVal.ndim, NpVal.dtype,
        NpVal.shape, NpPayload.ndim, NpPayload.shape, NpVal.d3rows,
        List.find?, Except.map, Function.comp, hc1, hc2, Int.toNat_natCast,
        exceptBind_ok]
  refine ⟨hmain, fun hint => ?_⟩
  rw [hmain, map_i8_id r.data hint]

/-- Witness for C5 at the spec's concrete scenario record (3×8 all-zero
I/Q, no tone triple). -/
theorem c5_witness :
    Record.load c5rec.save =
      Except.ok { c5rec with data := c5rec.data.map (fun row =>
        row.map (fun z => ((i8cast z.1 : ℚ), (i8cast z.2 : ℚ)))) } ∧
    ((∀ row ∈ c5rec.data, ∀ z ∈ row,
        (i8cast z.1 : ℚ) = z.1 ∧ (i8cast z.2 : ℚ) = z.2) →
      Record.load c5rec.save = Except.ok c5rec) :=
  c5_save_load_round_trip c5rec (by decide) (by decide) (by decide)
    (by decide) (Or.inr ⟨rfl, rfl, rfl⟩)

/-- Helper (inversion): everything a successful `Record.load` guarantees
about the file and the returned record. -/
theorem Record.load_ok_inversion (f : Npz) (rec : Record)
    (h : Record.load f = Except.ok rec) :
    loadOptFloat f "siggen_freq" = .ok rec.siggen_freq ∧
    loadOptFloat f "siggen_amp" = .ok rec.siggen_amp ∧
    loadOptBool f "siggen_rf_on" = .ok rec.siggen_rf_on ∧
    ∃ dataV, f.get? "data" = some dataV ∧
      ¬(dataV.ndim ≠ 3 ∨ dataV.shape.getLastD 0 ≠ 2) ∧
      ¬(dataV.dtype ≠ DType.int8) ∧
      rec.data = dataV.d3rows.map (fun row =>
        row.map (fun pair => (pair.getD 0 0, pair.getD 1 0))) ∧
      ∃ nb ns : ℤ, ¬((dataV.shape.take 2).map Int.ofNat ≠ [nb, ns]) ∧
        rec.nblocks = nb.toNat ∧ rec.nsamples = ns.toNat := by
  unfold Record.load at h
  simp only [exceptThrow_def, exceptPure_def, exceptBind_def] at h
  repeat' (first | exact Except.noConfusion h | split at h)
  injection h with h
  subst h
  exact ⟨by assumption, by assumption, by assumption, _, by assumption,
    by assumption, by assumption, rfl, _, _, by assumption, rfl, rfl⟩

/-- **C6** (counterexample): a file containing all required keys but only
`siggen_freq` among the three optional keys is NOT rejected by
`Record.load`; it loads successfully into a record with a partially
populated tone triple, contradicting the claim that such a file is a
format violation. -/
theorem c6_counterexample :
    Record.load c6file = Except.ok c6loaded ∧
    c6loaded.siggen_freq = some 5 ∧ c6loaded.siggen_amp = none ∧
    c6loaded.siggen_rf_on = none :=
  ⟨by rfl, rfl, rfl, rfl⟩

/-- Helper: `loadOptFloat` succeeds iff-independently of the other keys,
and its result is populated exactly when the key is present. -/
theorem loadOptFloat_isSome (f : Npz) (k : String) (o : Option ℚ)
    (h : loadOptFloat f k = .ok o) : o.isSome = (f.get? k).isSome := by
  unfold loadOptFloat at h
  rcases hg : f.get? k with _ | v
  · rw [hg] at h
    injection h with h
    subst h
    simp [hg]
  · rw [hg] at h
    cases v <;> simp [NpVal.toFloat, Except.map] at h <;>
      simp [hg, ← h]

/-- Helper: `loadOptBool` analogue of `loadOptFloat_isSome`. -/
theorem loadOptBool_isSome (f : Npz) (k : String) (o : Option Bool)
    (h : loadOptBool f k = .ok o) : o.isSome = (f.get? k).isSome := by
  unfold loadOptBool at h
  rcases hg : f.get? k with _ | v
  · rw [hg] at h
    injection h with h
    subst h
    simp [hg]
  · rw [hg] at h
    cases v <;> simp [NpVal.toBool, Except.map] at h <;>
      simp [hg, ← h]

/-- Helper: `save` writes the three signal-generator keys all-or-none. -/
theorem save_triple_keys (r : Record) :
    ((r.save.get? "siggen_freq").isSome = r.uses_synth) ∧
    ((r.save.get? "siggen_amp").isSome = r.uses_synth) ∧
    ((r.save.get? "siggen_rf_on").isSome = r.uses_synth) := by
  unfold Record.save Record._to_npz_dict Record.uses_synth
  rcases hf : r.siggen_freq with _ | fr <;>
    rcases ha : r.siggen_amp with _ | am <;>
      rcases hb : r.siggen_rf_on with _ | rb <;>
        simp [Npz.get?, List.find?]

/-- **C6** (amended): `Record.load` does NOT reject partial presence of
the optional triple — it populates each of `siggen_freq`, `siggen_amp`,
`siggen_rf_on` independently, exactly according to the presence of its own
key, so hand-crafted files yield partial triples; the all-or-none
invariant holds only for the files `save` itself writes, whose three keys
are present or absent together (gated on `uses_synth`). -/
theorem c6_amended_partial_triple_not_rejected :
    (∀ (f : Npz) (rec : Record), Record.load f = Except.ok rec →
      rec.siggen_freq.isSome = (f.get? "siggen_freq").isSome ∧
      rec.siggen_amp.isSome = (f.get? "siggen_amp").isSome ∧
      rec.siggen_rf_on.isSome = (f.get? "siggen_rf_on").isSome) ∧
    (∀ r : Record,
      ((r.save.get? "siggen_freq").isSome = r.uses_synth) ∧
      ((r.save.get? "siggen_amp").isSome = r.uses_synth) ∧
      ((r.save.get? "siggen_rf_on").isSome = r.uses_synth)) := by
  constructor
  · intro f rec h
    obtain ⟨h1, h2, h3, -⟩ := Record.load_ok_inversion f rec h
    exact ⟨loadOptFloat_isSome f _ _ h1, loadOptFloat_isSome f _ _ h2,
      loadOptBool_isSome f _ _ h3⟩
  · exact save_triple_keys

/-- Witness for the amended C6, at the crafted partial-triple file (load
side) and the spec's scenario record (save side). -/
theorem c6_witness :
    (c6loaded.siggen_freq.isSome = (c6file.get? "siggen_freq").isSome ∧
     c6loaded.siggen_amp.isSome = (c6file.get? "siggen_amp").isSome ∧
     c6loaded.siggen_rf_on.isSome = (c6file.get? "siggen_rf_on").isSome) ∧
    (((c5rec.save.get? "siggen_freq").isSome = c5rec.uses_synth) ∧
     ((c5rec.save.get? "siggen_amp").isSome = c5rec.uses_synth) ∧
     ((c5rec.save.get? "siggen_rf_on").isSome = c5rec.uses_synth)) :=
  ⟨c6_amended_partial_triple_not_rejected.1 c6file c6loaded (by rfl),
   c6_amended_partial_triple_not_rejected.2 c5rec⟩

/-- Helper: `mapQ` preserves dimensionality. -/
theorem NpPayload.mapQ_ndim (g : ℚ → ℚ) (p : NpPayload) :
    (p.mapQ g).ndim = p.ndim := by
  cases p <;> rfl

/-- Helper: `mapQ` preserves the shape. -/
theorem NpPayload.mapQ_shape (g : ℚ → ℚ) (p : NpPayload) :
    (p.mapQ g).shape = p.shape := by
  cases p with
  | d1 a => simp [NpPayload.mapQ, NpPayload.shape]
  | d2 a => cases a <;> simp [NpPayload.mapQ, NpPayload.shape]
  | d3 a =>
    cases a with
    | nil => simp [NpPayload.mapQ, NpPayload.shape]
    | cons r rest => cases r <;> simp [NpPayload.mapQ, NpPayload.shape]

/-- **C10** (counterexample): `c10file` is a well-formed direct-mode file
— `data` is int8 with shape `(1, 3)` consistent with the declared
`nblocks=1`, `nsamples=3`, and `direct` is true — yet `Record.load`
rejects it with a ValueError, so the loader does NOT accept the 2-D
direct-mode layout the claim says it accepts. -/
theorem c10_counterexample :
    c10file.get? "data" = some (.arr ⟨.int8, .d2 [[0, 0, 0]]⟩) ∧
    c10file.get? "direct" = some (.boolV true) ∧
    (NpVal.arr ⟨.int8, .d2 [[0, 0, 0]]⟩).shape = [1, 3] ∧
    (NpVal.arr ⟨.int8, .d2 [[0, 0, 0]]⟩).dtype = DType.int8 ∧
    c10file.get? "nblocks" = some (.i64 1) ∧
    c10file.get? "nsamples" = some (.i64 3) ∧
    Record.load c10file = Except.error PyErr.valueError :=
  ⟨by rfl, by rfl, by rfl, by rfl, by rfl, by rfl, by rfl⟩

/-- **C10** (amended): the schema saver stores the capture array as the
device produced it — 2-D `(nblocks, nsamples)` int8 for direct mode, 3-D
`(nblocks, nsamples, 2)` int8 for I/Q — but `models.record.Record.load`
accepts only the 3-D I/Q layout: it raises a validation error for every
2-D (direct-layout) data array, regardless of the `direct` flag, while
well-formed 3-D int8 files load successfully for either value of the
flag. -/
theorem c10_loader_accepts_only_iq_layout :
    (∀ {α : Type} (data : NpArray) (sdr : SDRState α)
        (a1 a2 a3 a4 a5 t1 t2 t3 : ℚ),
      2 ≤ data.payload.ndim →
      ∃ fz, save_obs data sdr a1 a2 a3 a4 a5 t1 t2 t3 = .ok fz ∧
        ∃ v : NpArray, fz.get? "data" = some (.arr v) ∧
          v.dtype = DType.int8 ∧
          v.payload.ndim = data.payload.ndim ∧
          v.payload.shape = data.payload.shape) ∧
    (∀ (f : Npz) (dt : DType) (a : List (List ℚ)) (rec : Record),
      f.get? "data" = some (.arr ⟨dt, .d2 a⟩) →
      Record.load f ≠ Except.ok rec) ∧
    (∀ b : Bool, ∃ rec, Record.load (c10iqfile b) = Except.ok rec ∧
      rec.direct = b) := by
  refine ⟨?_, ?_, ?_⟩
  · intro α data sdr a1 a2 a3 a4 a5 t1 t2 t3 hnd
    unfold save_obs build_record
    rw [if_neg (by
      simp only [NpArray.astypeInt8, NpPayload.mapQ_ndim, not_lt]
      exact hnd)]
    refine ⟨_, rfl, data.astypeInt8.astypeInt8, ?_, rfl, ?_, ?_⟩
    · simp [CaptureRecord.to_npz_dict, Npz.get?, List.find?]
    · simp [NpArray.astypeInt8, NpPayload.mapQ_ndim]
    · simp [NpArray.astypeInt8, NpPayload.mapQ_shape]
  · intro f dt a rec hget hload
    obtain ⟨-, -, -, dataV, hget', hnd, -⟩ :=
      Record.load_ok_inversion f rec hload
    rw [hget] at hget'
    injection hget' with hget'
    rw [← hget'] at hnd
    simp [NpVal.ndim, NpPayload.ndim, NpVal.shape, NpPayload.shape] at hnd
  · intro b
    cases b
    · exact ⟨_, by rfl, rfl⟩
    · exact ⟨_, by rfl, rfl⟩

/-- Witness for the amended C10: the saver's 2-D direct layout at a
concrete 1×3 capture, its rejection by `Record.load`, and acceptance of
the 3-D layout with `direct = true`. -/
theorem c10_witness :
    (∃ fz, save_obs (⟨.int8, .d2 [[0, 0, 0]]⟩ : NpArray) c7sdr
        0 0 0 0 0 0 0 0 = .ok fz ∧
      ∃ v : NpArray, fz.get? "data" = some (.arr v) ∧
        v.dtype = DType.int8 ∧
        v.payload.ndim = (NpPayload.d2 [[0, 0, 0]]).ndim ∧
        v.payload.shape = (NpPayload.d2 [[0, 0, 0]]).shape) ∧
    Record.load c10file ≠ Except.ok c6loaded :=
  ⟨c10_loader_accepts_only_iq_layout.1 ⟨.int8, .d2 [[0, 0, 0]]⟩ c7sdr
      0 0 0 0 0 0 0 0 (by decide),
   c10_loader_accepts_only_iq_layout.2.1 c10file .int8 [[0, 0, 0]]
      c6loaded (by rfl)⟩

/-! ## Parseval development for the spectrum engine -/

/-- Helper: the DFT character is additive. -/
theorem dftChar_add (n : ℕ) (a b : ℤ) :
    dftChar n (a + b) = dftChar n a * dftChar n b := by
  unfold dftChar
  rw [← Complex.exp_add]
  congr 1
  push_cast
  ring

/-- Helper: `dftChar n 0 = 1`. -/
theorem dftChar_zero (n : ℕ) : dftChar n 0 = 1 := by
  simp [dftChar]

/-- Helper: integer multiples of the argument become powers. -/
theorem dftChar_natCast_mul (n : ℕ) (d : ℤ) (k : ℕ) :
    dftChar n (k * d) = dftChar n d ^ k := by
  induction k with
  | zero => simpa using dftChar_zero n
  | succ k ih =>
    have harg : ((k + 1 : ℕ) : ℤ) * d = k * d + d := by push_cast; ring
    rw [harg, dftChar_add, ih, pow_succ]

/-- Helper: complex conjugation negates the character's argument. -/
theorem conj_dftChar (n : ℕ) (m : ℤ) :
    (starRingEnd ℂ) (dftChar n m) = dftChar n (-m) := by
  unfold dftChar
  rw [← Complex.exp_conj]
  congr 1
  simp only [map_div₀, map_mul, map_neg, map_ofNat, Complex.conj_I,
    Complex.conj_ofReal, map_intCast, map_natCast]
  push_cast
  ring

/-- Helper: the character is 1 exactly on multiples of `n`. -/
theorem dftChar_eq_one_iff (n : ℕ) (hn : 0 < n) (m : ℤ) :
    dftChar n m = 1 ↔ (n : ℤ) ∣ m := by
  have hπ : (Real.pi : ℂ) ≠ 0 := by
    exact_mod_cast Real.pi_ne_zero
  have hI : Complex.I ≠ 0 := Complex.I_ne_zero
  have hn' : (n : ℂ) ≠ 0 := Nat.cast_ne_zero.2 hn.ne'
  have h2πI : (2 * (Real.pi : ℂ) * Complex.I) ≠ 0 := by
    exact mul_ne_zero (mul_ne_zero two_ne_zero hπ) hI
  unfold dftChar
  rw [Complex.exp_eq_one_iff]
  constructor
  · rintro ⟨k, hk⟩
    refine ⟨-k, ?_⟩
    rw [div_eq_iff hn'] at hk
    have hmc : (2 * (Real.pi : ℂ) * Complex.I) * (m : ℂ) =
        (2 * (Real.pi : ℂ) * Complex.I) * ((-k : ℤ) * n) := by
      push_cast
      linear_combination -hk
    have := mul_left_cancel₀ h2πI hmc
    rw [mul_comm]
    exact_mod_cast this
  · rintro ⟨c, rfl⟩
    refine ⟨-c, ?_⟩
    push_cast
    field_simp
    ring

/-- Helper: geometric-sum orthogonality of the DFT characters. -/
theorem sum_dftChar (n : ℕ) (d : ℤ) :
    ∑ k : Fin n, dftChar n ((k : ℕ) * d) =
      if (n : ℤ) ∣ d then (n : ℂ) else 0 := by
  rcases Nat.eq_zero_or_pos n with hn | hn
  · subst hn
    simp only [Finset.univ_eq_empty, Finset.sum_empty, Nat.cast_zero]
    split_ifs <;> rfl
  · have hpow : ∀ k : Fin n, dftChar n ((k : ℕ) * d) = dftChar n d ^ (k : ℕ) :=
      fun k => dftChar_natCast_mul n d k
    rw [Finset.sum_congr rfl (fun k _ => hpow k),
      Fin.sum_univ_eq_sum_range (fun i => dftChar n d ^ i) n]
    by_cases hd : (n : ℤ) ∣ d
    · rw [if_pos hd]
      have h1 : dftChar n d = 1 := (dftChar_eq_one_iff n hn d).mpr hd
      simp [h1]
    · rw [if_neg hd]
      have h1 : dftChar n d ≠ 1 :=
        fun h => hd ((dftChar_eq_one_iff n hn d).mp h)
      rw [geom_sum_eq h1]
      have hn2 : dftChar n d ^ n = 1 := by
        rw [← dftChar_natCast_mul]
        exact (dftChar_eq_one_iff n hn _).mpr ⟨d, rfl⟩
      rw [hn2]
      simp

/-- Helper: Parseval's theorem for numpy's unnormalized DFT:
`∑ₖ |X_k|² = n ∑ₜ |x_t|²`. -/
theorem npFFT_parseval (n : ℕ) (x : Fin n → ℂ) :
    ∑ k, Complex.normSq (npFFT x k) = n * ∑ t, Complex.normSq (x t) := by
  have key : ∀ t s : Fin n,
      (∑ k : Fin n, dftChar n ((k : ℕ) * ((t : ℕ) - (s : ℕ) : ℤ))) =
        if t = s then (n : ℂ) else 0 := by
    intro t s
    rw [sum_dftChar]
    by_cases h : t = s
    · subst h
      simp
    · rw [if_neg h, if_neg ?_]
      intro hdvd
      have hne : ((t : ℕ) : ℤ) - (s : ℕ) ≠ 0 := by
        intro h0
        exact h (Fin.ext (by omega))
      have habs : |((t : ℕ) : ℤ) - (s : ℕ)| < n := by
        have h1 := t.isLt
        have h2 := s.isLt
        rw [abs_lt]
        constructor <;> [omega; omega]
      have hle : (n : ℤ) ≤ |((t : ℕ) : ℤ) - (s : ℕ)| :=
        Int.le_of_dvd (abs_pos.mpr hne) ((dvd_abs _ _).mpr hdvd)
      linarith
  have main : ((∑ k, Complex.normSq (npFFT x k) : ℝ) : ℂ) =
      ((n * ∑ t, Complex.normSq (x t) : ℝ) : ℂ) := by
    calc ((∑ k, Complex.normSq (npFFT x k) : ℝ) : ℂ)
        = ∑ k, ((Complex.normSq (npFFT x k) : ℝ) : ℂ) := by push_cast; rfl
      _ = ∑ k, npFFT x k * (starRingEnd ℂ) (npFFT x k) := by
          simp only [Complex.mul_conj]
      _ = ∑ k : Fin n, ∑ t : Fin n, ∑ s : Fin n,
            (x t * (starRingEnd ℂ) (x s)) *
              dftChar n ((k : ℕ) * ((t : ℕ) - (s : ℕ) : ℤ)) := by
          refine Finset.sum_congr rfl (fun k _ => ?_)
          unfold npFFT
          rw [map_sum, Finset.sum_mul_sum]
          refine Finset.sum_congr rfl (fun t _ =>
            Finset.sum_congr rfl (fun s _ => ?_))
          rw [map_mul, conj_dftChar]
          have harg : ((k : ℕ) * (t : ℕ) : ℤ) + -((k : ℕ) * (s : ℕ) : ℤ) =
              (k : ℕ) * ((t : ℕ) - (s : ℕ) : ℤ) := by
            ring
          rw [← harg, dftChar_add]
          ring
      _ = ∑ t : Fin n, ∑ s : Fin n,
            (x t * (starRingEnd ℂ) (x s)) *
              ∑ k : Fin n, dftChar n ((k : ℕ) * ((t : ℕ) - (s : ℕ) : ℤ)) := by
          rw [Finset.sum_comm]
          refine Finset.sum_congr rfl (fun t _ => ?_)
          rw [Finset.sum_comm]
          exact Finset.sum_congr rfl
            (fun s _ => (Finset.mul_sum _ _ _).symm)
      _ = ∑ t : Fin n, ∑ s : Fin n,
            if t = s then (x t * (starRingEnd ℂ) (x s)) * n else 0 := by
          refine Finset.sum_congr rfl (fun t _ =>
            Finset.sum_congr rfl (fun s _ => ?_))
          rw [key t s]
          by_cases h : t = s
          · rw [if_pos h, if_pos h]
          · rw [if_neg h, if_neg h, mul_zero]
      _ = ∑ t : Fin n, (x t * (starRingEnd ℂ) (x t)) * n := by
          refine Finset.sum_congr rfl (fun t _ => ?_)
          rw [Finset.sum_ite_eq]
          simp
      _ = ((n * ∑ t, Complex.normSq (x t) : ℝ) : ℂ) := by
          simp only [Complex.mul_conj]
          rw [← Finset.sum_mul]
          push_cast
          ring
  exact Complex.ofReal_injective main

/-- Helper: `fftshift` is a cyclic permutation, so sums over all bins are
unchanged. -/
theorem sum_fftshift {n : ℕ} (v : Fin n → ℝ) :
    ∑ j, fftshift v j = ∑ j, v j := by
  rcases Nat.eq_zero_or_pos n with hn | hn
  · subst hn
    simp
  · haveI : NeZero n := ⟨hn.ne'⟩
    unfold fftshift
    have hmap : ∀ j : Fin n,
        (⟨((j : ℕ) + (n - n / 2)) % n,
          Nat.mod_lt _ (Nat.lt_of_le_of_lt (Nat.zero_le _) j.isLt)⟩ : Fin n) =
          j + (⟨(n - n / 2) % n, Nat.mod_lt _ hn⟩ : Fin n) := by
      intro j
      apply Fin.ext
      simp only [Fin.add_def]
      conv_lhs => rw [Nat.add_mod]
      conv_rhs => rw [Nat.add_mod]
      rw [Nat.mod_mod_of_dvd _ (dvd_refl n)]
    calc ∑ j : Fin n, v ⟨((j : ℕ) + (n - n / 2)) % n,
          Nat.mod_lt _ (Nat.lt_of_le_of_lt (Nat.zero_le _) j.isLt)⟩
        = ∑ j : Fin n, v (j + (⟨(n - n / 2) % n, Nat.mod_lt _ hn⟩ : Fin n)) :=
          Finset.sum_congr rfl (fun j _ => by rw [hmap j])
      _ = ∑ j, v j :=
          Fintype.sum_equiv (Equiv.addRight _) _ _ (fun j => rfl)

/-- **C8**: each PSD bin is the mean over blocks of `|FFT|²/nsamples²`
(DC-centred), and the total power — the sum of the PSD over all bins —
equals the mean per-sample signal power computed directly from the raw
samples (Parseval), independent of `nsamples`. -/
theorem c8_psd_total_power_parseval (nb ns : ℕ) (hnb : 0 < nb)
    (hns : 0 < ns) (data : Fin nb → Fin ns → ℂ) :
    (∀ j, Spectrum.psd data j =
      (∑ b, Complex.normSq (fftshift (npFFT (data b)) j) / (ns : ℝ) ^ 2)
        / nb) ∧
    Spectrum.total_power data = meanSamplePower data := by
  refine ⟨fun j => rfl, ?_⟩
  have hns' : ((ns : ℝ)) ≠ 0 := Nat.cast_ne_zero.mpr hns.ne'
  have hnb' : ((nb : ℝ)) ≠ 0 := Nat.cast_ne_zero.mpr hnb.ne'
  unfold Spectrum.total_power Spectrum.psd blockPSDs meanSamplePower
  rw [← Finset.sum_div, Finset.sum_comm]
  have hb : ∀ b, (∑ j, Complex.normSq (fftshift (npFFT (data b)) j)
        / (ns : ℝ) ^ 2)
      = ((ns : ℝ) * ∑ t, Complex.normSq (data b t)) / (ns : ℝ) ^ 2 := by
    intro b
    rw [← Finset.sum_div]
    have hshift : ∑ j, Complex.normSq (fftshift (npFFT (data b)) j)
        = ∑ j, Complex.normSq (npFFT (data b) j) :=
      sum_fftshift (fun j => Complex.normSq (npFFT (data b) j))
    rw [hshift, npFFT_parseval]
  rw [Finset.sum_congr rfl (fun b _ => hb b)]
  rw [← Finset.sum_div, ← Finset.mul_sum]
  field_simp
  ring

/-- Witness for C8 at a 1-block, 2-sample constant record. -/
theorem c8_witness :
    (∀ j, Spectrum.psd (fun (_ : Fin 1) (_ : Fin 2) => (1 : ℂ)) j =
      (∑ b, Complex.normSq
          (fftshift (npFFT ((fun (_ : Fin 1) (_ : Fin 2) => (1 : ℂ)) b)) j)
        / ((2 : ℕ) : ℝ) ^ 2) / (1 : ℕ)) ∧
    Spectrum.total_power (fun (_ : Fin 1) (_ : Fin 2) => (1 : ℂ)) =
      meanSamplePower (fun (_ : Fin 1) (_ : Fin 2) => (1 : ℂ)) :=
  c8_psd_total_power_parseval 1 2 (by norm_num) (by norm_num)
    (fun _ _ => (1 : ℂ))

set_option allowUnsafeReducibility true

attribute [local semireducible] Rat.add Rat.sub Rat.mul Rat.div Rat.inv

/-- **C9** (counterexample): with `nblocks = 1`, `p_false_alarm = 1e-3`,
`min_distance = 1` and the Gamma-quantile oracle returning `9.3` (the true
`scipy` value is `ln(11000) ≈ 9.3057`, and any threshold in `(1.5, 10]`
behaves identically), the code reports only bin 7, although bin 5 is a
local maximum at or above the threshold and trivially satisfies the
1-bin separation — the prominence filter
(`prominence = threshold − median`) removes it, so the claim's "exactly
the local maxima at or above that threshold" is false. -/
theorem c9_counterexample :
    Spectrum.findPeaksIdx (fun _ _ _ => 93 / 10) c9psd 1 (1 / 1000) 1 =
      [7] ∧
    claimedPeaks c9psd (93 / 10) = [5, 7] ∧
    npMedian c9psd = 1 ∧
    (93 / 10 : ℚ) ≤ c9psd.getD 5 0 :=
  ⟨by decide, by decide, by decide, by decide⟩

/-! ## Structure of the peak pipeline at `min_distance = 1`

The distance-selection pass of `scipy.signal.find_peaks` keeps every peak
when `distance = 1`, because local-maximum indices are strictly
increasing, so no two peaks are closer than one bin.  The lemmas below
establish that identity, from which the corrected characterization of
`Spectrum.find_peaks` follows. -/

theorem plateauEndFuel_ge (x : List ℚ) (v : ℚ) (iMax : ℕ) :
    ∀ fuel k, k ≤ plateauEndFuel x v iMax fuel k := by
  intro fuel
  induction fuel with
  | zero => intro k; exact Nat.le_refl k
  | succ f ih =>
      intro k
      simp only [plateauEndFuel]
      split
      · exact Nat.le_trans (Nat.le_succ k) (ih (k + 1))
      · exact Nat.le_refl k

theorem plateauEndFuel_plateau (x : List ℚ) (v : ℚ) (iMax : ℕ) :
    ∀ fuel k l, k ≤ l → l < plateauEndFuel x v iMax fuel k →
      x.getD l 0 = v := by
  intro fuel
  induction fuel with
  | zero =>
      intro k l hkl hl
      simp only [plateauEndFuel] at hl
      omega
  | succ f ih =>
      intro k l hkl hl
      simp only [plateauEndFuel] at hl
      by_cases hc : k < iMax ∧ x.getD k 0 = v
      · rw [if_pos hc] at hl
        rcases Nat.eq_or_lt_of_le hkl with heq | hlt
        · rw [← heq]; exact hc.2
        · exact ih (k + 1) l hlt hl
      · rw [if_neg hc] at hl; omega

theorem plateauEnd_ge (x : List ℚ) (v : ℚ) (iMax k : ℕ) :
    k ≤ plateauEnd x v iMax k :=
  plateauEndFuel_ge x v iMax (iMax - k) k

theorem plateauEnd_plateau (x : List ℚ) (v : ℚ) (iMax k l : ℕ)
    (hkl : k ≤ l) (hl : l < plateauEnd x v iMax k) : x.getD l 0 = v :=
  plateauEndFuel_plateau x v iMax (iMax - k) k l hkl hl

theorem lmProbe_eq_some {x : List ℚ} {i m : ℕ} (h : lmProbe x i = some m) :
    1 ≤ i ∧ i + 1 < x.length ∧ x.getD (i - 1) 0 < x.getD i 0 ∧
      m = (i + plateauEnd x (x.getD i 0) (x.length - 1) (i + 1) - 1) / 2 := by
  unfold lmProbe at h
  by_cases h1 : 1 ≤ i ∧ i + 1 < x.length ∧ x.getD (i - 1) 0 < x.getD i 0
  · rw [if_pos h1] at h
    by_cases h2 : x.getD (plateauEnd x (x.getD i 0) (x.length - 1) (i + 1)) 0
        < x.getD i 0
    · rw [if_pos h2] at h
      injection h with h
      exact ⟨h1.1, h1.2.1, h1.2.2, h.symm⟩
    · rw [if_neg h2] at h; exact Option.noConfusion h
  · rw [if_neg h1] at h; exact Option.noConfusion h

/-- Peak midpoints produced by `_local_maxima_1d` are strictly increasing
in the probe index: the plateau of the earlier peak must end at or before
the later peak's rising edge. -/
theorem lmProbe_mid_lt {x : List ℚ} {i1 i2 m1 m2 : ℕ} (h12 : i1 < i2)
    (h1 : lmProbe x i1 = some m1) (h2 : lmProbe x i2 = some m2) :
    m1 < m2 := by
  obtain ⟨hi1, hlen1, hrise1, hm1⟩ := lmProbe_eq_some h1
  obtain ⟨hi2, hlen2, hrise2, hm2⟩ := lmProbe_eq_some h2
  have hj1ge : i1 + 1 ≤ plateauEnd x (x.getD i1 0) (x.length - 1) (i1 + 1) :=
    plateauEnd_ge x _ _ _
  have hj2ge : i2 + 1 ≤ plateauEnd x (x.getD i2 0) (x.length - 1) (i2 + 1) :=
    plateauEnd_ge x _ _ _
  have hj1le : plateauEnd x (x.getD i1 0) (x.length - 1) (i1 + 1) ≤ i2 := by
    by_contra hcon
    push_neg at hcon
    have hx2 : x.getD i2 0 = x.getD i1 0 :=
      plateauEnd_plateau x (x.getD i1 0) (x.length - 1) (i1 + 1) i2
        (by omega) hcon
    have hx2' : x.getD (i2 - 1) 0 = x.getD i1 0 := by
      by_cases hadj : i2 - 1 = i1
      · rw [hadj]
      · exact plateauEnd_plateau x (x.getD i1 0) (x.length - 1) (i1 + 1)
          (i2 - 1) (by omega) (by omega)
    rw [hx2, hx2'] at hrise2
    exact lt_irrefl _ hrise2
  omega

theorem localMaxIndices_pairwise (x : List ℚ) :
    List.Pairwise (· < ·) (localMaxIndices x) := by
  unfold localMaxIndices
  rw [List.pairwise_filterMap]
  refine (List.pairwise_lt_range x.length).imp ?_
  intro i1 i2 h12 m1 hm1 m2 hm2
  exact lmProbe_mid_lt h12 (Option.mem_def.mp hm1) (Option.mem_def.mp hm2)

theorem pairwise_getD_lt {l : List ℕ} (hp : List.Pairwise (· < ·) l)
    {i j : ℕ} (hij : i < j) (hj : j < l.length) :
    l.getD i 0 < l.getD j 0 := by
  have hi : i < l.length := Nat.lt_trans hij hj
  rw [List.getD_eq_getElem _ _ hi, List.getD_eq_getElem _ _ hj]
  have := List.pairwise_iff_get.mp hp ⟨i, hi⟩ ⟨j, hj⟩ hij
  simpa [List.get_eq_getElem] using this

theorem insertIdx_subset {le : ℕ → ℕ → Bool} {a x : ℕ} :
    ∀ {l : List ℕ}, x ∈ insertIdx le a l → x = a ∨ x ∈ l := by
  intro l
  induction l with
  | nil =>
      intro h
      rcases List.mem_cons.mp h with h | h
      · exact Or.inl h
      · exact absurd h (List.not_mem_nil x)
  | cons b t ih =>
      intro h
      rw [insertIdx] at h
      by_cases hc : le a b = true
      · rw [if_pos hc] at h
        rcases List.mem_cons.mp h with h | h
        · exact Or.inl h
        · exact Or.inr h
      · rw [if_neg hc] at h
        rcases List.mem_cons.mp h with h | h
        · exact Or.inr (by rw [h]; exact List.mem_cons_self b t)
        · rcases ih h with h | h
          · exact Or.inl h
          · exact Or.inr (List.mem_cons_of_mem b h)

theorem sortIdx_subset {le : ℕ → ℕ → Bool} {x : ℕ} :
    ∀ {l : List ℕ}, x ∈ sortIdx le l → x ∈ l := by
  intro l
  induction l with
  | nil => intro h; exact absurd h (List.not_mem_nil x)
  | cons b t ih =>
      intro h
      rcases insertIdx_subset h with h | h
      · rw [h]; exact List.mem_cons_self b t
      · exact List.mem_cons_of_mem b (ih h)

theorem argsortQ_mem_lt {pr : List ℚ} {j : ℕ} (h : j ∈ argsortQ pr) :
    j < pr.length :=
  List.mem_range.mp (sortIdx_subset h)

theorem clearLeftAux_id {peaks : List ℕ} (hp : List.Pairwise (· < ·) peaks)
    {j' : ℕ} (hj : j' + 1 < peaks.length) (keep : List Bool) :
    clearLeftAux peaks 1 (peaks.getD (j' + 1) 0) j' keep = keep := by
  have h : peaks.getD j' 0 < peaks.getD (j' + 1) 0 :=
    pairwise_getD_lt hp (Nat.lt_succ_self j') hj
  rw [clearLeftAux]
  rw [if_neg (by omega)]

theorem clearRightAux_id {peaks : List ℕ} (hp : List.Pairwise (· < ·) peaks)
    {j : ℕ} (hj : j < peaks.length) (keep : List Bool) :
    clearRightAux peaks 1 (peaks.getD j 0) peaks.length (j + 1) keep
      = keep := by
  unfold clearRightAux
  cases hf : peaks.length - (j + 1) with
  | zero => rfl
  | succ f =>
      simp only [clearRightFuel]
      have hlt : j + 1 < peaks.length := by omega
      have h : peaks.getD j 0 < peaks.getD (j + 1) 0 :=
        pairwise_getD_lt hp (Nat.lt_succ_self j) hlt
      rw [if_neg (by omega)]

theorem selectStep_id {peaks : List ℕ} (hp : List.Pairwise (· < ·) peaks)
    {j : ℕ} (hj : j < peaks.length) (keep : List Bool) :
    selectStep peaks 1 keep j = keep := by
  unfold selectStep
  by_cases h0 : keep.getD j true = false
  · rw [if_pos h0]
  · rw [if_neg h0]
    cases j with
    | zero => exact clearRightAux_id hp hj keep
    | succ j' =>
        show clearRightAux peaks 1 (peaks.getD (j' + 1) 0) peaks.length
          (j' + 1 + 1) (clearLeftAux peaks 1 (peaks.getD (j' + 1) 0) j' keep)
            = keep
        rw [clearLeftAux_id hp hj keep]
        exact clearRightAux_id hp hj keep

theorem foldl_selectStep_id {peaks : List ℕ}
    (hp : List.Pairwise (· < ·) peaks) (l : List ℕ)
    (hl : ∀ j ∈ l, j < peaks.length) (keep : List Bool) :
    l.foldl (selectStep peaks 1) keep = keep := by
  induction l generalizing keep with
  | nil => rfl
  | cons a t ih =>
      rw [List.foldl_cons, selectStep_id hp (hl a (List.mem_cons_self a t)) keep]
      exact ih (fun j hj => hl j (List.mem_cons_of_mem a hj)) keep

theorem getD_replicate_of_lt {n i : ℕ} (h : i < n) :
    (List.replicate n true).getD i false = true := by
  rw [List.getD_eq_getElem _ _ (by simpa using h)]
  simp

theorem map_getD_range (l : List ℕ) :
    (List.range l.length).map (fun i => l.getD i 0) = l := by
  induction l with
  | nil => rfl
  | cons a t ih =>
      rw [List.length_cons, List.range_succ_eq_map, List.map_cons,
        List.map_map]
      simp only [Function.comp_def, List.getD_cons_zero, List.getD_cons_succ]
      rw [ih]

/-- `_select_by_peak_distance` with `distance = 1` keeps every peak when
the peak positions are strictly increasing. -/
theorem selectByPeakDistance_one {peaks : List ℕ}
    (hp : List.Pairwise (· < ·) peaks) (priority : List ℚ)
    (hlen : priority.length = peaks.length) :
    selectByPeakDistance peaks priority 1 = peaks := by
  show ((List.range peaks.length).filter (fun i =>
      ((argsortQ priority).reverse.foldl (selectStep peaks 1)
        (List.replicate peaks.length true)).getD i false)).map
    (fun i => peaks.getD i 0) = peaks
  rw [foldl_selectStep_id hp _ (fun j hj =>
    hlen ▸ argsortQ_mem_lt (List.mem_reverse.mp hj)) _]
  rw [List.filter_eq_self.mpr (fun i hi =>
    getD_replicate_of_lt (List.mem_range.mp hi))]
  exact map_getD_range peaks

set_option maxHeartbeats 1000000

/-- **C9** (amended): for every spectrum, `Spectrum.find_peaks` estimates
the noise floor `μ` as the median of all PSD bins, uses the
Bonferroni-corrected per-bin rate `p_false_alarm / nfreqs`, sets the
threshold to the `(1 - p_per_bin)` Gamma quantile with shape `nblocks`
and scale `μ / nblocks`, and hands `scipy.signal.find_peaks` the
conditions `height = threshold`, `distance = min_distance` **and
additionally `prominence = threshold - μ`** (the clause the spec omits).
At `min_distance = 1`, where the separation requirement is vacuous, the
reported peaks are exactly the local maxima at or above the threshold
*whose prominence is at least `threshold - μ`* — not all local maxima at
or above the threshold. -/
theorem c9_amended_prominence_condition (g : ℚ → ℕ → ℚ → ℚ) (psd : List ℚ)
    (nb : ℕ) (p : ℚ) (md : ℕ) :
    Spectrum.findPeaksIdx g psd nb p md =
      scipyFindPeaks psd (g (1 - p / psd.length) nb (npMedian psd / nb))
        (g (1 - p / psd.length) nb (npMedian psd / nb) - npMedian psd) md ∧
    Spectrum.findPeaksIdx g psd nb p 1 =
      (claimedPeaks psd (g (1 - p / psd.length) nb
          (npMedian psd / nb))).filter
        (fun i => decide (g (1 - p / psd.length) nb (npMedian psd / nb)
            - npMedian psd ≤ prominenceAt psd i)) := by
  refine ⟨rfl, ?_⟩
  show (selectByPeakDistance
      ((localMaxIndices psd).filter
        (fun q => decide (g (1 - p / psd.length) nb (npMedian psd / nb)
          ≤ psd.getD q 0)))
      (((localMaxIndices psd).filter
        (fun q => decide (g (1 - p / psd.length) nb (npMedian psd / nb)
          ≤ psd.getD q 0))).map (fun q => psd.getD q 0)) 1).filter
      (fun q => decide (g (1 - p / psd.length) nb (npMedian psd / nb)
        - npMedian psd ≤ prominenceAt psd q)) =
    (claimedPeaks psd (g (1 - p / psd.length) nb
        (npMedian psd / nb))).filter
      (fun i => decide (g (1 - p / psd.length) nb (npMedian psd / nb)
          - npMedian psd ≤ prominenceAt psd i))
  rw [selectByPeakDistance_one
    ((localMaxIndices_pairwise psd).filter _) _ (List.length_map _ _)]
  rfl

end UGL
